import Mathlib

/-! # Precompiled contracts and operand stack of `core/vm`

A shallow embedding of the native contracts and of the metering protocol
`RunPrecompiledContract` (contracts.go), and of the operand stack (stack.go).

* a Go `[]byte` is a `List Byte`, `Byte = Fin 256` (8-bit arithmetic wraps);
* a `*big.Int` is an `Int`; `SetBytes` yields a non-negative one, kept as a
  `Nat` and cast where the source does signed arithmetic;
* a `uint64` is a `Nat` below `2^64`; every narrowing or wrap of the source is
  written out (`Uint64`, `% 2^64`, `toInt`);
* `([]byte, error)` is `List Byte × Option VMError`;
* a panic of the stack (an index out of range) is `none`.
-/

namespace Vm

/-- An 8-bit byte. -/
abbrev Byte := Fin 256

/-- The errors of the package that a precompile call can return. -/
inductive VMError where
  | ErrOutOfGas
  | errNotOnCurve
  | errInvalidCurvePoint
  | errBadPairingInput
  deriving DecidableEq, Repr

/-- Go's `([]byte, error)`. -/
abbrev Result := List Byte × Option VMError

/-- `math.MaxUint64`. -/
def MaxUint64 : Nat := 2 ^ 64 - 1

/-! ## Byte helpers (common/bytes.go, core/vm/common.go) -/

/-- Modelled from the spec: `common.RightPadBytes` is not among the sources.
"Right-padded with zeros if shorter": a slice of at least `l` bytes is returned
as it is, a shorter one is followed by zero bytes up to length `l`. -/
def RightPadBytes (slice : List Byte) (l : Nat) : List Byte :=
  if l ≤ slice.length then slice else slice ++ List.replicate (l - slice.length) 0

/-- Modelled from the spec: `common.LeftPadBytes` is not among the sources.
"Left-pad to exactly `l` bytes": a slice of at least `l` bytes is returned as it
is (so also for a negative `l`), a shorter one is preceded by zero bytes. -/
def LeftPadBytes (slice : List Byte) (l : Int) : List Byte :=
  if l ≤ (slice.length : Int) then slice
  else List.replicate (l.toNat - slice.length) 0 ++ slice

/-- The read of the specification: `size` bytes of `data` starting at offset
`start`, zero-filled past the end. -/
def readPadded (data : List Byte) (start size : Nat) : List Byte :=
  RightPadBytes ((data.drop start).take size) size

/-- Modelled from the spec: `allZero` (core/vm/common.go) is not among the
sources. "Must be all-zero": every byte of the slice is zero. -/
def allZero (b : List Byte) : Bool := b.all (fun x => x == 0)

/-! ## `math/big` operations used by the contracts -/

/-- `new(big.Int).SetBytes(b)`: the big-endian unsigned value of `b`. -/
def SetBytes (b : List Byte) : Nat := b.foldl (fun acc x => acc * 256 + x.val) 0

/-- Number of binary digits of `n`, by halving at most `fuel` times. -/
def bitLenAux : Nat → Nat → Nat
  | 0, _ => 0
  | fuel + 1, n => if n = 0 then 0 else bitLenAux fuel (n / 2) + 1

/-- `x.BitLen()`: the length of the absolute value of `x` in bits; 0 for 0. -/
def BitLen (x : Int) : Nat := bitLenAux x.natAbs x.natAbs

/-- `x.Uint64()`: the low 64 bits of the absolute value of `x`. -/
def Uint64 (x : Int) : Nat := x.natAbs % 2 ^ 64

/-- `math.BigMax(x, y)`: `y` if `x < y`, else `x`. -/
def BigMax (x y : Int) : Int := if x < y then y else x

/-- Big-endian digits of `n` in base 256, most significant first, prepended to
`acc`; at most `fuel` digits. -/
def bytesAux : Nat → Nat → List Byte → List Byte
  | 0, _, acc => acc
  | fuel + 1, n, acc => if n = 0 then acc else bytesAux fuel (n / 256) (Fin.ofNat n :: acc)

/-- `x.Bytes()` for a non-negative `x`: the minimal big-endian encoding (empty
for 0). -/
def Bytes (n : Nat) : List Byte := bytesAux n n []

/-- `z.Exp(x, y, m)` for non-negative operands: `x ^ y mod m`, and `x ^ y` when
`m = 0`. -/
def Exp (x y m : Nat) : Nat := if m = 0 then x ^ y else x ^ y % m

/-- Go's `int(n)` of a `uint64` on a 64-bit platform (two's complement). -/
def toInt (n : Nat) : Int :=
  if n % 2 ^ 64 < 2 ^ 63 then (n % 2 ^ 64 : Nat) else (n % 2 ^ 64 : Nat) - 2 ^ 64

/-- Modelled from the spec: `getData` (core/vm/common.go) is not among the
sources. It is the read of `size` bytes at offset `start` that zero-fills past
the end, with the padding done by `common.RightPadBytes` to the length
`int(size)`: a `size` of `2^63` or more is a negative `int`, and then the bytes
read are returned as they are, without padding. The embedding is total; it does
not model the panic of a read whose end `start + size` wraps around `2^64`. -/
def getData (data : List Byte) (start size : Nat) : List Byte :=
  if toInt size < 0 then (data.drop start).take size
  else RightPadBytes ((data.drop start).take size) size

/-! ## The interface and the metering protocol -/

/-- The interface `PrecompiledContract`. `Run` threads a state `σ` standing
for whatever evaluating the body can touch, so that "the body was not
evaluated" is a statement about the returned state. -/
structure PrecompiledContract (σ : Type) where
  RequiredGas : List Byte → Nat
  Run : List Byte → σ → Result × σ

/-- The gas account of a call (`Contract`, of which only `Gas` matters here). -/
structure Contract where
  Gas : Nat
  deriving DecidableEq, Repr

/-- Modelled from the spec: `Contract.UseGas` (core/vm/contract.go) is not
among the sources. "Attempt to charge `gas` against the caller-supplied gas
account; the charge fails on insufficient remaining budget": with less than
`gas` left the account is unchanged and the answer is `false`, otherwise `gas`
is deducted and the answer is `true`. -/
def Contract.UseGas (c : Contract) (gas : Nat) : Bool × Contract :=
  if c.Gas < gas then (false, c) else (true, { Gas := c.Gas - gas })

/-- `RunPrecompiledContract`: charge `p.RequiredGas(input)`, and only on
success evaluate `p.Run(input)`. -/
def RunPrecompiledContract {σ : Type} (p : PrecompiledContract σ) (input : List Byte)
    (contract : Contract) (w : σ) : Result × Contract × σ :=
  let gas := p.RequiredGas input
  match contract.UseGas gas with
  | (true, contract') =>
    let (r, w') := p.Run input w
    (r, contract', w')
  | (false, contract') => (([], some VMError.ErrOutOfGas), contract', w)

/-! ## bigModExp -/

/-- `bigModExp.RequiredGas`. The divisor `params.ModExpQuadCoeffDiv` (a
constant of package `params`, not among the sources) is the parameter
`quadCoeffDiv`. -/
def bigModExp.RequiredGas (quadCoeffDiv : Nat) (input : List Byte) : Nat :=
  let baseLen : Int := SetBytes (getData input 0 32)
  let expLen : Int := SetBytes (getData input 32 32)
  let modLen : Int := SetBytes (getData input 64 32)
  let input := if input.length > 96 then input.drop 96 else input.take 0
  -- Retrieve the head 32 bytes of exp for the adjusted exponent length
  let expHead : Int :=
    if (input.length : Int) ≤ baseLen then 0
    else if expLen > 32 then SetBytes (getData input (Uint64 baseLen) 32)
    else SetBytes (getData input (Uint64 baseLen) (Uint64 expLen))
  -- Calculate the adjusted exponent length
  let bitlen := BitLen expHead
  let msb : Nat := if bitlen > 0 then bitlen - 1 else 0
  let adjExpLen : Int := if expLen > 32 then 8 * (expLen - 32) else 0
  let adjExpLen : Int := adjExpLen + (msb : Int)
  let gas : Int := BigMax modLen baseLen
  let gas : Int :=
    if gas ≤ 64 then gas * gas
    else if gas ≤ 1024 then gas * gas / 4 + (96 * gas - 3072)
    else gas * gas / 16 + (480 * gas - 199680)
  let gas : Int := gas * BigMax adjExpLen 1
  let gas : Int := gas / (quadCoeffDiv : Int)
  if BitLen gas > 64 then MaxUint64 else Uint64 gas

/-- `bigModExp.Run`. -/
def bigModExp.Run (input : List Byte) : Result :=
  let baseLen := Uint64 (SetBytes (getData input 0 32))
  let expLen := Uint64 (SetBytes (getData input 32 32))
  let modLen := Uint64 (SetBytes (getData input 64 32))
  let input := if input.length > 96 then input.drop 96 else input.take 0
  if baseLen = 0 ∧ modLen = 0 then ([], none)
  else
    -- Retrieve the operands and execute the exponentiation
    let base := SetBytes (getData input 0 baseLen)
    let exp := SetBytes (getData input baseLen expLen)
    let mod := SetBytes (getData input ((baseLen + expLen) % 2 ^ 64) modLen)
    if BitLen mod = 0 then (LeftPadBytes [] (toInt modLen), none)
    else (LeftPadBytes (Bytes (Exp base exp mod)) (toInt modLen), none)

/-- The contract `&bigModExp{}` behind the interface. -/
def bigModExp (σ : Type) (quadCoeffDiv : Nat) : PrecompiledContract σ where
  RequiredGas := bigModExp.RequiredGas quadCoeffDiv
  Run := fun input w => (bigModExp.Run input, w)

/-- A narrowing `x.Uint64()` that loses nothing: defined only for
`0 ≤ x < 2^64`. -/
def exactUint64 (x : Int) : Option Nat :=
  if 0 ≤ x ∧ x < 2 ^ 64 then some x.toNat else none

/-- The body of `bigModExp.RequiredGas` with every step that can fault or lose
information made partial: the slice `input[96:]` needs `96 ≤ len(input)`, each
`Uint64()` needs a value in `[0, 2^64)`, and `Div` needs a non-zero divisor. -/
def bigModExp.RequiredGasStrict (quadCoeffDiv : Nat) (input : List Byte) : Option Nat :=
  let baseLen : Int := SetBytes (getData input 0 32)
  let expLen : Int := SetBytes (getData input 32 32)
  let modLen : Int := SetBytes (getData input 64 32)
  let sliced : Option (List Byte) :=
    if input.length > 96 then
      (if 96 ≤ input.length then some (input.drop 96) else none)
    else some (input.take 0)
  sliced.bind fun input =>
  let expHead : Option Int :=
    if (input.length : Int) ≤ baseLen then some 0
    else if expLen > 32 then
      (exactUint64 baseLen).bind fun b => some ((SetBytes (getData input b 32) : Nat) : Int)
    else
      (exactUint64 baseLen).bind fun b =>
      (exactUint64 expLen).bind fun e => some ((SetBytes (getData input b e) : Nat) : Int)
  expHead.bind fun expHead =>
  let bitlen := BitLen expHead
  let msb : Nat := if bitlen > 0 then bitlen - 1 else 0
  let adjExpLen : Int := if expLen > 32 then 8 * (expLen - 32) else 0
  let adjExpLen : Int := adjExpLen + (msb : Int)
  let gas : Int := BigMax modLen baseLen
  let gas : Int :=
    if gas ≤ 64 then gas * gas
    else if gas ≤ 1024 then gas * gas / 4 + (96 * gas - 3072)
    else gas * gas / 16 + (480 * gas - 199680)
  let gas : Int := gas * BigMax adjExpLen 1
  let quotient : Option Int :=
    if quadCoeffDiv = 0 then none else some (gas / (quadCoeffDiv : Int))
  quotient.bind fun gas =>
  if BitLen gas > 64 then some MaxUint64 else exactUint64 gas

/-! ### The gas formula of the specification -/

/-- The declared length of the base: header bytes `[0, 32)`, big-endian. -/
def modexpBaseLen (input : List Byte) : Nat := SetBytes (readPadded input 0 32)

/-- The declared length of the exponent: header bytes `[32, 64)`. -/
def modexpExpLen (input : List Byte) : Nat := SetBytes (readPadded input 32 32)

/-- The declared length of the modulus: header bytes `[64, 96)`. -/
def modexpModLen (input : List Byte) : Nat := SetBytes (readPadded input 64 32)

/-- The bytes after the 96-byte header. -/
def modexpData (input : List Byte) : List Byte := input.drop 96

/-- The head of the exponent: 0 if `len(data) ≤ baseLen`, otherwise the value
of the `min(expLen, 32)` bytes of `data` at offset `baseLen`. -/
def modexpExpHead (input : List Byte) : Nat :=
  if (modexpData input).length ≤ modexpBaseLen input then 0
  else SetBytes (readPadded (modexpData input) (modexpBaseLen input) (min (modexpExpLen input) 32))

/-- Index of the highest set bit of the exponent head (0 for 0). -/
def modexpMsb (input : List Byte) : Nat := Nat.log2 (modexpExpHead input)

/-- The adjusted exponent length `8 * max(expLen - 32, 0) + msb`. -/
def modexpAdjExpLen (input : List Byte) : Nat :=
  8 * (modexpExpLen input - 32) + modexpMsb input

/-- The piecewise quadratic cost in `x = max(modLen, baseLen)`. -/
def modexpCost (x : Nat) : Nat :=
  if x ≤ 64 then x ^ 2
  else if x ≤ 1024 then x ^ 2 / 4 + 96 * x - 3072
  else x ^ 2 / 16 + 480 * x - 199680

/-- The exact value of the gas formula, before the conversion to 64 bits. -/
def modexpRawGas (quadCoeffDiv : Nat) (input : List Byte) : Nat :=
  modexpCost (max (modexpModLen input) (modexpBaseLen input))
    * max (modexpAdjExpLen input) 1 / quadCoeffDiv

/-- The base `B`: the `baseLen` bytes of `data` at offset 0. -/
def modexpBase (input : List Byte) : Nat :=
  SetBytes (readPadded (modexpData input) 0 (modexpBaseLen input))

/-- The exponent `E`: the `expLen` bytes of `data` at offset `baseLen`. -/
def modexpExp (input : List Byte) : Nat :=
  SetBytes (readPadded (modexpData input) (modexpBaseLen input) (modexpExpLen input))

/-- The bytes of the modulus: the `modLen` bytes of `data` at offset
`baseLen + expLen`. -/
def modexpModBytes (input : List Byte) : List Byte :=
  readPadded (modexpData input) (modexpBaseLen input + modexpExpLen input) (modexpModLen input)

/-- The modulus `M`. -/
def modexpMod (input : List Byte) : Nat := SetBytes (modexpModBytes input)

/-- A 32-byte big-endian header word holding `n`. -/
def word32 (n : Nat) : List Byte := LeftPadBytes (Bytes n) 32

/-! ## ecrecover -/

/-- The order of the secp256k1 group (`secp256k1_N` of package `crypto`). -/
def secp256k1_N : Nat :=
  0xFFFFFFFFFFFFFFFFFFFFFFFFFFFFFFFEBAAEDCE6AF48A03BBFD25E8CD0364141

/-- Half the group order (`secp256k1_halfN`). -/
def secp256k1_halfN : Nat := secp256k1_N / 2

/-- Modelled from the spec: `crypto.ValidateSignatureValues` is not among the
sources. Section 4.2: `r` and `s` are non-zero and below the group order and
the recovery id is 0 or 1; the low-s rule ("canonical low-s signature") is
what the fourth argument, the chain-rule flag `homestead`, switches on. -/
def ValidateSignatureValues (v : Byte) (r s : Nat) (homestead : Bool) : Bool :=
  if r < 1 ∨ s < 1 then false
  else if homestead = true ∧ s > secp256k1_halfN then false
  else decide (r < secp256k1_N ∧ s < secp256k1_N ∧ (v = 0 ∨ v = 1))

/-- `ecrecover.Run`. The public-key recovery `crypto.Ecrecover` (`none` is
its error) and the hash `crypto.Keccak256` are external and are parameters. -/
def ecrecover.Run (Ecrecover : List Byte → List Byte → Option (List Byte))
    (Keccak256 : List Byte → List Byte) (input : List Byte) : Result :=
  let input := RightPadBytes input 128
  let r := SetBytes ((input.drop 64).take 32)
  let s := SetBytes ((input.drop 96).take 32)
  let v : Byte := input.getD 63 0 - 27
  if !allZero ((input.drop 32).take 31) || !ValidateSignatureValues v r s false then
    ([], none)
  else
    match Ecrecover (input.take 32) ((input.drop 64).take 64 ++ [v]) with
    | none => ([], none)
    | some pubKey => (LeftPadBytes ((Keccak256 (pubKey.drop 1)).drop 12) 32, none)


/-! ## Concrete inputs -/

/-- A contract whose body counts its evaluations, for the instances of C1. -/
def countingContract : PrecompiledContract Nat where
  RequiredGas := fun input => input.length
  Run := fun input n => ((input, none), n + 1)

/-- The input `baseLen = 1, expLen = 1, modLen = 1`, base 3, exponent 255,
modulus 5. -/
def modexpSmallInput : List Byte := word32 1 ++ word32 1 ++ word32 1 ++ [3, 255, 5]

/-- The input `baseLen = 1, expLen = 2^68, modLen = 1` with no data. -/
def modexpHugeExpInput : List Byte := word32 1 ++ word32 (2 ^ 68) ++ word32 1

/-- The input `baseLen = 1, expLen = 1, modLen = 2`, base 2, exponent 2,
modulus 5 (bytes `0, 5`). -/
def modexpTwoTwoFive : List Byte := word32 1 ++ word32 1 ++ word32 2 ++ [2, 2, 0, 5]

/-- The input `baseLen = 2^63, expLen = 2^63, modLen = 1` with the single data
byte 2: the offset `baseLen + expLen` of the modulus is `2^64`. -/
def modexpWrapInput : List Byte := word32 (2 ^ 63) ++ word32 (2 ^ 63) ++ word32 1 ++ [2]

/-- The input `baseLen = 1, expLen = 1, modLen = 2^63` with the data bytes
3, 2, 5: base 3, exponent 2, and a modulus longer than a slice can be. -/
def modexpHugeModInput : List Byte := word32 1 ++ word32 1 ++ word32 (2 ^ 63) ++ [3, 2, 5]

/-- The input `baseLen = 1, expLen = 1, modLen = 3`, base 7, exponent 2 and no
modulus bytes. -/
def modexpZeroModInput : List Byte := word32 1 ++ word32 1 ++ word32 3 ++ [7, 2]

/-! ### The specification's reading of the input of ecrecover -/

/-- The input right-padded with zero bytes to 128 bytes. -/
def ecrecoverPadded (input : List Byte) : List Byte :=
  input ++ List.replicate (128 - input.length) (0 : Byte)

/-- The signature value `r`: bytes `[64, 96)` of the padded input. -/
def ecrecoverR (input : List Byte) : Nat :=
  SetBytes (((ecrecoverPadded input).drop 64).take 32)

/-- The signature value `s`: bytes `[96, 128)` of the padded input. -/
def ecrecoverS (input : List Byte) : Nat :=
  SetBytes (((ecrecoverPadded input).drop 96).take 32)

/-- A signed call of the contract: a message hash, the recovery byte 28, `r`, and
an `s` above half the group order (0xeeb9...4549). -/
def ecrecoverHighSInput : List Byte :=
  -- message hash
  [24, 197, 71, 228, 247, 176, 243, 37, 173, 30, 86, 245, 126, 38, 199, 69, 176, 154, 62,
   80, 61, 134, 224, 14, 82, 85, 255, 127, 113, 93, 61, 28]
    -- padding and recovery byte
    ++ List.replicate 31 (0 : Byte) ++ [28]
    -- r
    ++ [115, 177, 105, 56, 146, 33, 157, 115, 108, 171, 165, 91, 219, 103, 33, 110, 72, 85, 87,
     234, 107, 106, 247, 95, 55, 9, 108, 154, 166, 165, 167, 95]
    -- s
    ++ [238, 185, 64, 177, 208, 59, 33, 227, 107, 14, 71, 231, 151, 105, 240, 149, 254, 42,
     184, 85, 189, 145, 227, 163, 135, 86, 183, 215, 90, 156, 69, 73]

/-- The public key that signed `ecrecoverHighSInput`, in the 65-byte uncompressed
encoding. -/
def ecrecoverHighSKey : List Byte :=
  [4, 58, 81, 65, 118, 70, 111, 168, 21, 237, 72, 31, 250, 208, 145, 16, 162, 211, 68, 246, 201,
   183, 140, 29, 20, 175, 195, 81, 195, 165, 27, 227, 61, 128, 114, 231, 121, 57, 220, 3, 186,
   68, 121, 7, 121, 183, 161, 2, 91, 175, 48, 3, 246, 115, 36, 48, 226, 12, 217, 183, 109, 149,
   51, 145, 179]

/-- The Keccak-256 hash of the 64 coordinate bytes of `ecrecoverHighSKey`. -/
def ecrecoverHighSKeyHash : List Byte :=
  [250, 122, 62, 29, 221, 85, 134, 33, 54, 200, 177, 146, 169, 79, 83, 116, 252, 229, 237, 188,
   142, 42, 134, 151, 193, 83, 49, 103, 126, 110, 191, 11]

/-- A call with the message hash of `ecrecoverHighSInput`, the recovery byte
27, `r = 5` and `s = 1`: the signature values are in range, but 5 is not the x
coordinate of a point of secp256k1, so no public key can be recovered. -/
def ecrecoverNoKeyInput : List Byte :=
  ecrecoverHighSInput.take 32 ++ List.replicate 31 (0 : Byte) ++ [27]
    ++ word32 5 ++ word32 1

/-- The values of `crypto.Ecrecover` that the instances use: at the hash and
signature of `ecrecoverHighSInput` it is `ecrecoverHighSKey`, and at those of
`ecrecoverNoKeyInput` it is the error. The table answers with the error at
every other argument, which no instance relies on. -/
def recoverHighSKey (hash sig : List Byte) : Option (List Byte) :=
  if hash = ecrecoverHighSInput.take 32 ∧
      sig = (ecrecoverHighSInput.drop 64).take 64 ++ [1] then
    some ecrecoverHighSKey
  else none

/-- The value of `crypto.Keccak256` at the coordinates of `ecrecoverHighSKey`;
32 zero bytes elsewhere. -/
def keccakHighSKey (data : List Byte) : List Byte :=
  if data = ecrecoverHighSKey.drop 1 then ecrecoverHighSKeyHash
  else List.replicate 32 (0 : Byte)

/-- An input of 128 bytes that is zero but for the recovery byte 27, `r = 1`
and `s = 2^256 - 1`. -/
def ecrecoverMaxSInput : List Byte :=
  List.replicate 63 (0 : Byte) ++ [27] ++ List.replicate 31 (0 : Byte) ++ [1]
    ++ List.replicate 32 (255 : Byte)

/-- An input of 128 bytes that is zero but for the recovery byte 27: a
well-formed layout with `r = s = 0`. -/
def ecrecoverZeroSigInput : List Byte :=
  List.replicate 63 (0 : Byte) ++ [27] ++ List.replicate 64 (0 : Byte)

/-! ## ecrecover and the memory of the caller's slice -/

/-- A Go byte slice together with its backing array, from the first element
of the slice to the end of its capacity: `buf.length` is the capacity and
`len`, at most the capacity, the length. -/
structure Slice where
  buf : List Byte
  len : Nat

/-- The bytes of the slice. -/
def Slice.bytes (s : Slice) : List Byte := s.buf.take s.len

/-- The capacity `cap(s)`. -/
def Slice.cap (s : Slice) : Nat := s.buf.length

/-- Modelled from the spec: `common.RightPadBytes` is not among the sources.
Its result in memory: a slice that is not shorter than `l` bytes is handed on as
it is, the same array with the same capacity; a shorter one is copied into a
fresh array of `l` bytes. The answer is whether the result is the argument's
own memory, and the capacity of the result. -/
def RightPadBytes.memory (slice : Slice) (l : Nat) : Bool × Nat :=
  if l ≤ slice.len then (true, slice.cap) else (false, l)

/-- `ecrecover.Run` with the memory of the caller's slice made explicit; the
second component is the caller's backing array after the call. Go's
`append(input[64:128], v)` appends to a slice of length 64 and capacity
`cap(input) - 64`: with spare capacity it writes `v` in place, at index 128 of
the array of `input`, and otherwise it allocates. -/
def ecrecover.RunBuffer (Ecrecover : List Byte → List Byte → Option (List Byte))
    (Keccak256 : List Byte → List Byte) (caller : Slice) : Result × List Byte :=
  let (shares, inputCap) := RightPadBytes.memory caller 128
  let input := RightPadBytes caller.bytes 128
  let r := SetBytes ((input.drop 64).take 32)
  let s := SetBytes ((input.drop 96).take 32)
  let v : Byte := input.getD 63 0 - 27
  if !allZero ((input.drop 32).take 31) || !ValidateSignatureValues v r s false then
    (([], none), caller.buf)
  else
    let inPlace : Bool := decide (64 < inputCap - 64)
    let buf := if shares && inPlace then caller.buf.set 128 v else caller.buf
    match Ecrecover (input.take 32) ((input.drop 64).take 64 ++ [v]) with
    | none => (([], none), buf)
    | some pubKey => ((LeftPadBytes ((Keccak256 (pubKey.drop 1)).drop 12) 32, none), buf)

/-- The caller's slice for the code-level instance of C12: the 128 bytes of
`ecrecoverHighSInput` followed by one zero byte, with length and capacity 129. -/
def ecrecoverLongCall : Slice :=
  { buf := ecrecoverHighSInput ++ [0], len := 129 }

/-! ## The hash and copy contracts -/

/-- `sha256hash.RequiredGas`, in `uint64` arithmetic; the constants
`params.Sha256PerWordGas` and `params.Sha256BaseGas` (package `params`, not
among the sources) are parameters. -/
def sha256hash.RequiredGas (Sha256PerWordGas Sha256BaseGas : Nat) (input : List Byte) : Nat :=
  ((input.length + 31) % 2 ^ 64 / 32 * Sha256PerWordGas % 2 ^ 64 + Sha256BaseGas) % 2 ^ 64

/-- `ripemd160hash.RequiredGas`, with `params.Ripemd160PerWordGas` and
`params.Ripemd160BaseGas` as parameters. -/
def ripemd160hash.RequiredGas (Ripemd160PerWordGas Ripemd160BaseGas : Nat)
    (input : List Byte) : Nat :=
  ((input.length + 31) % 2 ^ 64 / 32 * Ripemd160PerWordGas % 2 ^ 64 + Ripemd160BaseGas) % 2 ^ 64

/-- `dataCopy.RequiredGas`, with `params.IdentityPerWordGas` and
`params.IdentityBaseGas` as parameters. -/
def dataCopy.RequiredGas (IdentityPerWordGas IdentityBaseGas : Nat) (input : List Byte) : Nat :=
  ((input.length + 31) % 2 ^ 64 / 32 * IdentityPerWordGas % 2 ^ 64 + IdentityBaseGas) % 2 ^ 64

/-- `dataCopy.Run`. -/
def dataCopy.Run (input : List Byte) : Result := (input, none)

/-! ## The bn256 contracts -/

/-- An element of the quadratic extension field (`gfP2`) by its two
components. -/
structure GfP2 where
  Real : Int
  Imag : Int

/-- The operations of package `crypto/bn256` that the contracts call; the
package is not among the sources and its operations are parameters.
`UnmarshalG1` and `UnmarshalG2` answer `none` where the Go methods answer
`false` for "on curve". -/
structure Bn256 where
  G1 : Type
  G2 : Type
  P : Int
  UnmarshalG1 : List Byte → Option G1
  CurvePointsG1 : G1 → Int × Int × Int × Int
  UnmarshalG2 : List Byte → Option G2
  CurvePointsG2 : G2 → GfP2 × GfP2 × GfP2 × GfP2
  PairingCheck : List G1 → List G2 → Bool

/-- `newCurvePoint`: unmarshal a blob into a point of the base group. -/
def newCurvePoint (lib : Bn256) (blob : List Byte) : Except VMError lib.G1 :=
  match lib.UnmarshalG1 blob with
  | none => Except.error VMError.errNotOnCurve
  | some p =>
    let (gx, gy, _, _) := lib.CurvePointsG1 p
    if gx ≥ lib.P ∨ gy ≥ lib.P then Except.error VMError.errInvalidCurvePoint
    else Except.ok p

/-- `newTwistPoint`: unmarshal a blob into a point of the twist group. -/
def newTwistPoint (lib : Bn256) (blob : List Byte) : Except VMError lib.G2 :=
  match lib.UnmarshalG2 blob with
  | none => Except.error VMError.errNotOnCurve
  | some p =>
    let (x2, y2, _, _) := lib.CurvePointsG2 p
    if x2.Real ≥ lib.P ∨ x2.Imag ≥ lib.P ∨ y2.Real ≥ lib.P ∨ y2.Imag ≥ lib.P then
      Except.error VMError.errInvalidCurvePoint
    else Except.ok p

/-- The sentinel `true32Byte`. -/
def true32Byte : List Byte := List.replicate 31 (0 : Byte) ++ [1]

/-- The sentinel `false32Byte`. -/
def false32Byte : List Byte := List.replicate 32 (0 : Byte)

/-- The loop of `bn256Pairing.Run` from offset `i`, with the points collected
so far; `fuel` bounds the number of rounds. -/
def bn256Pairing.loop (lib : Bn256) (input : List Byte) :
    Nat → Nat → List lib.G1 → List lib.G2 → Except VMError (List lib.G1 × List lib.G2)
  | 0, _, cs, ts => Except.ok (cs, ts)
  | fuel + 1, i, cs, ts =>
    if i < input.length then
      match newCurvePoint lib ((input.drop i).take 64) with
      | Except.error err => Except.error err
      | Except.ok c =>
        match newTwistPoint lib ((input.drop (i + 64)).take 128) with
        | Except.error err => Except.error err
        | Except.ok t => bn256Pairing.loop lib input fuel (i + 192) (cs ++ [c]) (ts ++ [t])
    else Except.ok (cs, ts)

/-- `bn256Pairing.Run`. -/
def bn256Pairing.Run (lib : Bn256) (input : List Byte) : Result :=
  if input.length % 192 > 0 then ([], some VMError.errBadPairingInput)
  else
    -- Convert the input into a set of coordinates
    match bn256Pairing.loop lib input input.length 0 [] [] with
    | Except.error err => ([], some err)
    | Except.ok (cs, ts) =>
      if lib.PairingCheck cs ts then (true32Byte, none) else (false32Byte, none)

/-- An instance of the library for concrete evaluations, with the decoding
of section 4.5 of the specification: a base-group blob is two 32-byte
big-endian coordinates, the all-zero blob is the identity, any other must
satisfy `y^2 = x^3 + 3` modulo `P`. No twist-group blob decodes and the pairing
check is constant: neither is exercised by the instances. -/
def bn256Sample : Bn256 where
  G1 := Nat × Nat
  G2 := Unit
  P := 21888242871839275222246405745257275088696311157297823662689037894645226208583
  UnmarshalG1 := fun blob =>
    let x := SetBytes (blob.take 32)
    let y := SetBytes ((blob.drop 32).take 32)
    if blob.length ≠ 64 then none
    else if x = 0 ∧ y = 0 then some (0, 1)
    else if (y * y) % 21888242871839275222246405745257275088696311157297823662689037894645226208583
        = (x * x * x + 3)
          % 21888242871839275222246405745257275088696311157297823662689037894645226208583 then
      some (x, y)
    else none
  CurvePointsG1 := fun p => ((p.1 : Int), (p.2 : Int), 1, 1)
  UnmarshalG2 := fun _ => none
  CurvePointsG2 := fun _ => (⟨0, 0⟩, ⟨0, 0⟩, ⟨0, 0⟩, ⟨0, 0⟩)
  PairingCheck := fun _ _ => true

/-- A 64-byte blob with the coordinates `x` and `y`. -/
def pointBlob (x y : Nat) : List Byte := word32 x ++ word32 y

/-! ## The registries -/

/-- The contract types of the package. -/
inductive ContractType where
  | ecrecover
  | sha256hash
  | ripemd160hash
  | dataCopy
  | bigModExp
  | bn256Add
  | bn256ScalarMul
  | bn256Pairing
  deriving DecidableEq, Repr

/-- Modelled from the spec: `common.BytesToAddress` is not among the sources.
An address is "a fixed 20-byte identifier": the bytes, cut to their last 20,
left-padded with zeros to 20 bytes. -/
def BytesToAddress (b : List Byte) : List Byte :=
  LeftPadBytes (b.drop (b.length - 20)) 20

/-- `PrecompiledContractsHomestead`. -/
def PrecompiledContractsHomestead : List (List Byte × ContractType) :=
  [ (BytesToAddress [1], ContractType.ecrecover),
    (BytesToAddress [2], ContractType.sha256hash),
    (BytesToAddress [3], ContractType.ripemd160hash),
    (BytesToAddress [4], ContractType.dataCopy) ]

/-- `PrecompiledContractsByzantium`. -/
def PrecompiledContractsByzantium : List (List Byte × ContractType) :=
  [ (BytesToAddress [1], ContractType.ecrecover),
    (BytesToAddress [2], ContractType.sha256hash),
    (BytesToAddress [3], ContractType.ripemd160hash),
    (BytesToAddress [4], ContractType.dataCopy),
    (BytesToAddress [5], ContractType.bigModExp),
    (BytesToAddress [6], ContractType.bn256Add),
    (BytesToAddress [7], ContractType.bn256ScalarMul),
    (BytesToAddress [8], ContractType.bn256Pairing) ]

/-- The 20-byte address with the numeric value `n`. -/
def addressOf (n : Nat) : List Byte := LeftPadBytes (Bytes n) 20

/-- The contract the specification names for each address number: signature
recovery, SHA-256, RIPEMD-160, identity, modexp, curve-add, curve-scalar-mul,
pairing-check. -/
def contractNumbered : Nat → Option ContractType
  | 1 => some ContractType.ecrecover
  | 2 => some ContractType.sha256hash
  | 3 => some ContractType.ripemd160hash
  | 4 => some ContractType.dataCopy
  | 5 => some ContractType.bigModExp
  | 6 => some ContractType.bn256Add
  | 7 => some ContractType.bn256ScalarMul
  | 8 => some ContractType.bn256Pairing
  | _ => none

/-! ## The stack (stack.go) -/

/-- The element of a Go slice at an `int` index; `none` stands for the
run-time panic of an index out of range. -/
def index {α : Type} (l : List α) (i : Int) : Option α :=
  if 0 ≤ i then l[i.toNat]? else none

/-- `Stack`: the items, bottom first. -/
structure Stack where
  data : List Int
  deriving DecidableEq, Repr

/-- The error of `Stack.require`, with the two numbers of its message. -/
inductive StackError where
  | underflow (len n : Int)
  deriving DecidableEq, Repr

/-- `newstack`. -/
def newstack : Stack := { data := [] }

/-- `Stack.push`. -/
def Stack.push (st : Stack) (d : Int) : Stack := { data := st.data ++ [d] }

/-- `Stack.pushN`. -/
def Stack.pushN (st : Stack) (ds : List Int) : Stack := { data := st.data ++ ds }

/-- `Stack.len`. -/
def Stack.len (st : Stack) : Int := st.data.length

/-- `Stack.pop`: the top item and the stack without it; `none` on a panic. -/
def Stack.pop (st : Stack) : Option (Int × Stack) :=
  match index st.data (st.len - 1) with
  | none => none
  | some ret => some (ret, { data := st.data.take (st.len - 1).toNat })

/-- `Stack.peek`. -/
def Stack.peek (st : Stack) : Option Int := index st.data (st.len - 1)

/-- `Stack.Back`: the n'th item from the top. -/
def Stack.Back (st : Stack) (n : Int) : Option Int := index st.data (st.len - n - 1)

/-- `Stack.swap`: both right-hand sides are read, then `data[len-n]` and
`data[len-1]` are assigned in this order; `none` on a panic. -/
def Stack.swap (st : Stack) (n : Int) : Option Stack :=
  match index st.data (st.len - 1), index st.data (st.len - n) with
  | some top, some nth =>
    some { data := (st.data.set (st.len - n).toNat top).set (st.len - 1).toNat nth }
  | _, _ => none

/-- `Stack.require`: `none` is the `nil` error. -/
def Stack.require (st : Stack) (n : Int) : Option StackError :=
  if st.len < n then some (StackError.underflow st.data.length n) else none

/-- A pairing input of one 192-byte chunk whose base-group point `(1, 3)` is
not on the curve. -/
def pairingMalformedChunk : List Byte := pointBlob 1 3 ++ List.replicate 128 (0 : Byte)

/-! ### The three pieces of the modexp cost -/

/-- The cost for `x ≤ 64`: `x^2`. -/
def modexpCostLow (x : Nat) : Nat := x ^ 2

/-- The cost for `64 < x ≤ 1024`: `x^2/4 + 96x - 3072`. -/
def modexpCostMid (x : Nat) : Nat := x ^ 2 / 4 + 96 * x - 3072

/-- The cost for `x > 1024`: `x^2/16 + 480x - 199680`. -/
def modexpCostHigh (x : Nat) : Nat := x ^ 2 / 16 + 480 * x - 199680

/-- The operand length `x = max(modLen, baseLen)` of the gas formula. -/
def modexpOperandLen (input : List Byte) : Nat :=
  max (modexpModLen input) (modexpBaseLen input)

/-- The input `baseLen = 1, expLen = 1, modLen = 1025` with base 3 and
exponent 255: `modexpSmallInput` with a longer modulus. -/
def modexpLongModInput : List Byte := word32 1 ++ word32 1 ++ word32 1025 ++ [3, 255]

/-! # Lemmas and theorems -/

/-! ## Lemmas on the byte and big-integer helpers -/

theorem bitLenAux_le_iff (fuel : Nat) : ∀ n k : Nat, n ≤ fuel →
    (bitLenAux fuel n ≤ k ↔ n < 2 ^ k) := by
  induction fuel with
  | zero =>
    intro n k h
    have hn : n = 0 := by omega
    subst hn
    simp [bitLenAux]
  | succ f ih =>
    intro n k h
    by_cases hn : n = 0
    · subst hn
      simp [bitLenAux]
    · simp only [bitLenAux, if_neg hn]
      cases k with
      | zero =>
        simp only [pow_zero, Nat.lt_one_iff]
        constructor
        · intro h0; omega
        · intro h0; exact absurd h0 hn
      | succ k =>
        have hdiv : n / 2 ≤ f := by omega
        rw [Nat.add_le_add_iff_right, ih (n / 2) k hdiv, pow_succ]
        exact Nat.div_lt_iff_lt_mul (by decide)

theorem BitLen_natCast_le_iff (n k : Nat) : BitLen (n : Int) ≤ k ↔ n < 2 ^ k := by
  simp only [BitLen, Int.natAbs_ofNat]
  exact bitLenAux_le_iff n n k (le_refl n)

theorem BitLen_natCast_eq_zero_iff (n : Nat) : BitLen (n : Int) = 0 ↔ n = 0 := by
  have h := BitLen_natCast_le_iff n 0
  simp only [pow_zero, Nat.lt_one_iff, Nat.le_zero] at h
  exact h

theorem BitLen_natCast_eq_log2 (n : Nat) (hn : n ≠ 0) : BitLen (n : Int) = Nat.log2 n + 1 := by
  apply le_antisymm
  · rw [BitLen_natCast_le_iff]
    exact Nat.lt_log2_self
  · by_contra hlt
    have h1 : BitLen (n : Int) ≤ Nat.log2 n := by omega
    rw [BitLen_natCast_le_iff] at h1
    have h2 := Nat.log2_self_le hn
    omega

theorem SetBytes_foldl (b : List Byte) : ∀ a : Nat,
    b.foldl (fun acc x => acc * 256 + x.val) a = a * 256 ^ b.length + SetBytes b := by
  induction b with
  | nil => intro a; simp [SetBytes]
  | cons x xs ih =>
    intro a
    simp only [SetBytes, List.foldl_cons, List.length_cons]
    rw [ih (a * 256 + x.val), ih (0 * 256 + x.val)]
    ring

theorem SetBytes_append (a b : List Byte) :
    SetBytes (a ++ b) = SetBytes a * 256 ^ b.length + SetBytes b := by
  unfold SetBytes
  rw [List.foldl_append, SetBytes_foldl]
  rfl

theorem SetBytes_replicate_zero (k : Nat) : SetBytes (List.replicate k (0 : Byte)) = 0 := by
  induction k with
  | zero => rfl
  | succ k ih =>
    rw [List.replicate_succ']
    rw [SetBytes_append, ih]
    rfl

theorem SetBytes_lt (b : List Byte) : SetBytes b < 256 ^ b.length := by
  induction b using List.reverseRecOn with
  | nil => simp [SetBytes]
  | append_singleton xs x ih =>
    rw [SetBytes_append]
    have hx : SetBytes [x] = x.val := by simp [SetBytes]
    have hlt := x.isLt
    simp only [List.length_append, List.length_singleton, pow_succ, hx, pow_one]
    have h1 : SetBytes xs + 1 ≤ 256 ^ xs.length := ih
    nlinarith

theorem SetBytes_eq_zero_iff (b : List Byte) : SetBytes b = 0 ↔ ∀ x ∈ b, x = 0 := by
  induction b using List.reverseRecOn with
  | nil => simp [SetBytes]
  | append_singleton xs x ih =>
    rw [SetBytes_append]
    have hx : SetBytes [x] = x.val := by simp [SetBytes]
    simp only [List.length_singleton, pow_one, hx, List.mem_append, List.mem_singleton]
    constructor
    · intro h y hy
      have h1 : SetBytes xs = 0 := by omega
      have h2 : x.val = 0 := by omega
      rcases hy with hy | hy
      · exact ih.mp h1 y hy
      · rw [hy]; exact Fin.ext h2
    · intro h
      have h1 : SetBytes xs = 0 := ih.mpr (fun y hy => h y (Or.inl hy))
      have h2 : x = 0 := h x (Or.inr rfl)
      rw [h1, h2]
      rfl

theorem take_append_replicate_of_le (x : List Byte) (n m : Nat) (h : n ≤ m) :
    (x ++ List.replicate m (0 : Byte)).take n = (x ++ List.replicate n (0 : Byte)).take n := by
  rw [List.take_append_eq_append_take, List.take_append_eq_append_take]
  congr 1
  rw [List.take_replicate, List.take_replicate]
  congr 1
  omega

theorem readPadded_eq (d : List Byte) (s n : Nat) :
    readPadded d s n = ((d.drop s) ++ List.replicate n (0 : Byte)).take n := by
  unfold readPadded RightPadBytes
  by_cases h : n ≤ ((d.drop s).take n).length
  · rw [if_pos h]
    have h2 : n ≤ (d.drop s).length := by
      rw [List.length_take] at h
      omega
    rw [List.take_append_of_le_length h2]
  · rw [if_neg h]
    rw [List.length_take] at h
    have h2 : (d.drop s).length < n := by omega
    rw [List.take_of_length_le (le_of_lt h2), List.take_append_eq_append_take,
      List.take_of_length_le (le_of_lt h2), List.take_replicate]
    congr 2
    omega

theorem readPadded_length (d : List Byte) (s n : Nat) : (readPadded d s n).length = n := by
  rw [readPadded_eq, List.length_take, List.length_append, List.length_replicate]
  omega

theorem readPadded_append_zeros (d : List Byte) (k s n : Nat) :
    readPadded (d ++ List.replicate k (0 : Byte)) s n = readPadded d s n := by
  rw [readPadded_eq, readPadded_eq, List.drop_append_eq_append_drop, List.drop_replicate,
    List.append_assoc, ← List.replicate_add, Nat.add_comm]
  exact take_append_replicate_of_le _ n _ (Nat.le_add_right _ _)

theorem readPadded_of_length_le (d : List Byte) (s n : Nat) (h : d.length ≤ s) :
    readPadded d s n = List.replicate n (0 : Byte) := by
  rw [readPadded_eq, List.drop_of_length_le h, List.nil_append, List.take_replicate]
  simp

theorem toInt_neg_iff (n : Nat) : toInt n < 0 ↔ 2 ^ 63 ≤ n % 2 ^ 64 := by
  unfold toInt
  have hlt : n % 2 ^ 64 < 2 ^ 64 := Nat.mod_lt _ (by decide)
  split_ifs with h
  · constructor
    · intro h0; omega
    · intro h0; omega
  · constructor
    · intro _; omega
    · intro _; omega

theorem getData_eq_readPadded (d : List Byte) (s n : Nat) (h : n % 2 ^ 64 < 2 ^ 63) :
    getData d s n = readPadded d s n := by
  unfold getData readPadded
  rw [if_neg]
  rw [toInt_neg_iff]
  omega

theorem getData_of_large (d : List Byte) (s n : Nat) (h : 2 ^ 63 ≤ n % 2 ^ 64) :
    getData d s n = (d.drop s).take n := by
  unfold getData
  rw [if_pos ((toInt_neg_iff n).mpr h)]

/-! ## bigModExp.RequiredGas against the gas formula -/

theorem modexp_slice_eq_drop (input : List Byte) :
    (if input.length > 96 then input.drop 96 else input.take 0) = modexpData input := by
  unfold modexpData
  by_cases h : input.length > 96
  · rw [if_pos h]
  · rw [if_neg h, List.take_zero, List.drop_of_length_le (by omega)]

theorem Uint64_natCast_of_lt (n : Nat) (h : n < 2 ^ 64) : Uint64 (n : Int) = n := by
  simp only [Uint64, Int.natAbs_ofNat]
  exact Nat.mod_eq_of_lt h

theorem modexpData_length_lt (input : List Byte) (hlen : input.length < 2 ^ 63) :
    (modexpData input).length < 2 ^ 63 := by
  unfold modexpData
  rw [List.length_drop]
  omega

theorem modexp_expHead_eq (input : List Byte) (hlen : input.length < 2 ^ 63) :
    (if ((modexpData input).length : Int) ≤ (modexpBaseLen input : Int) then (0 : Int)
      else if (modexpExpLen input : Int) > 32 then
        ((SetBytes (getData (modexpData input) (Uint64 (modexpBaseLen input : Int)) 32) : Nat) : Int)
      else ((SetBytes (getData (modexpData input) (Uint64 (modexpBaseLen input : Int))
        (Uint64 (modexpExpLen input : Int))) : Nat) : Int))
      = (modexpExpHead input : Int) := by
  have hd := modexpData_length_lt input hlen
  unfold modexpExpHead
  by_cases h1 : (modexpData input).length ≤ modexpBaseLen input
  · rw [if_pos h1, if_pos (by exact_mod_cast h1)]
    rfl
  · rw [if_neg h1, if_neg (by exact_mod_cast h1)]
    have hb : Uint64 (modexpBaseLen input : Int) = modexpBaseLen input :=
      Uint64_natCast_of_lt _ (by omega)
    rw [hb]
    by_cases h2 : modexpExpLen input > 32
    · rw [if_pos (by exact_mod_cast h2), Nat.min_eq_right (le_of_lt h2),
        getData_eq_readPadded _ _ 32 (by decide)]
    · rw [if_neg (by exact_mod_cast h2)]
      have he : Uint64 (modexpExpLen input : Int) = modexpExpLen input :=
        Uint64_natCast_of_lt _ (by omega)
      rw [he, Nat.min_eq_left (by omega), getData_eq_readPadded _ _ _ (by omega)]

theorem getData_header (input : List Byte) (s : Nat) :
    getData input s 32 = readPadded input s 32 :=
  getData_eq_readPadded input s 32 (by decide)

theorem modexp_msb_eq (n : Nat) :
    (if BitLen (n : Int) > 0 then BitLen (n : Int) - 1 else 0) = Nat.log2 n := by
  by_cases hn : n = 0
  · subst hn
    have h0 : BitLen ((0 : Nat) : Int) = 0 := (BitLen_natCast_eq_zero_iff 0).mpr rfl
    rw [h0]
    simp [Nat.log2]
  · rw [BitLen_natCast_eq_log2 n hn]
    simp

theorem modexp_adjExpLen_eq (e m : Nat) :
    (if (e : Int) > 32 then 8 * ((e : Int) - 32) else 0) + (m : Int)
      = ((8 * (e - 32) + m : Nat) : Int) := by
  split_ifs with h <;> omega

theorem BigMax_natCast (a b : Nat) : BigMax (a : Int) (b : Int) = ((max a b : Nat) : Int) := by
  unfold BigMax
  split_ifs with h
  · have h' : a < b := by exact_mod_cast h
    rw [Nat.max_eq_right (le_of_lt h')]
  · have h' : ¬ a < b := by exact_mod_cast h
    rw [Nat.max_eq_left (by omega)]

theorem modexp_cost_eq (x : Nat) :
    (if (x : Int) ≤ 64 then (x : Int) * x
      else if (x : Int) ≤ 1024 then (x : Int) * x / 4 + (96 * (x : Int) - 3072)
      else (x : Int) * x / 16 + (480 * (x : Int) - 199680))
      = (modexpCost x : Int) := by
  unfold modexpCost
  have hsq : x ^ 2 = x * x := by ring
  rw [hsq]
  have hc : ((x * x : Nat) : Int) = (x : Int) * x := by push_cast; ring
  rw [← hc]
  generalize x * x = y
  split_ifs <;> omega

theorem BitLen_natCast_gt_iff (n : Nat) : BitLen (n : Int) > 64 ↔ 2 ^ 64 ≤ n := by
  have h := BitLen_natCast_le_iff n 64
  omega

theorem bigModExp_RequiredGas_eq (d : Nat) (input : List Byte) (hlen : input.length < 2 ^ 63) :
    bigModExp.RequiredGas d input
      = if 2 ^ 64 ≤ modexpRawGas d input then MaxUint64 else modexpRawGas d input := by
  unfold bigModExp.RequiredGas
  simp only []
  rw [modexp_slice_eq_drop, getData_header input 0, getData_header input 32,
    getData_header input 64]
  have h1 := modexp_expHead_eq input hlen
  simp only [modexpBaseLen, modexpExpLen] at h1
  rw [h1, modexp_msb_eq, modexp_adjExpLen_eq, BigMax_natCast]
  have h2 := modexp_cost_eq (max (SetBytes (readPadded input 64 32)) (SetBytes (readPadded input 0 32)))
  rw [h2]
  have h3 : BigMax ((8 * (SetBytes (readPadded input 32 32) - 32) + (modexpExpHead input).log2 : Nat) : Int) 1
      = ((max (8 * (SetBytes (readPadded input 32 32) - 32) + (modexpExpHead input).log2) 1 : Nat) : Int) := by
    have := BigMax_natCast (8 * (SetBytes (readPadded input 32 32) - 32) + (modexpExpHead input).log2) 1
    exact_mod_cast this
  rw [h3]
  have h4 : ∀ a b c : Nat, ((a : Int) * (b : Int) / (c : Int)) = ((a * b / c : Nat) : Int) := by
    intro a b c; push_cast; rfl
  rw [h4]
  have h5 : modexpCost (max (SetBytes (readPadded input 64 32)) (SetBytes (readPadded input 0 32)))
      * max (8 * (SetBytes (readPadded input 32 32) - 32) + (modexpExpHead input).log2) 1 / d
      = modexpRawGas d input := rfl
  rw [h5]
  by_cases hb : 2 ^ 64 ≤ modexpRawGas d input
  · rw [if_pos ((BitLen_natCast_gt_iff _).mpr hb), if_pos hb]
  · rw [if_neg (fun h => hb ((BitLen_natCast_gt_iff _).mp h)), if_neg hb]
    exact Uint64_natCast_of_lt _ (by omega)

/-! ## Lemmas for bigModExp.Run -/

theorem SetBytes_cons (x : Byte) (xs : List Byte) :
    SetBytes (x :: xs) = x.val * 256 ^ xs.length + SetBytes xs := by
  have h := SetBytes_append [x] xs
  have hx : SetBytes [x] = x.val := by simp [SetBytes]
  rw [hx] at h
  exact h

theorem SetBytes_bytesAux (fuel : Nat) : ∀ (n : Nat) (acc : List Byte), n ≤ fuel →
    SetBytes (bytesAux fuel n acc) = n * 256 ^ acc.length + SetBytes acc := by
  induction fuel with
  | zero =>
    intro n acc h
    have hn : n = 0 := by omega
    subst hn
    simp [bytesAux]
  | succ f ih =>
    intro n acc h
    by_cases hn : n = 0
    · subst hn
      simp [bytesAux]
    · simp only [bytesAux, if_neg hn]
      rw [ih (n / 256) _ (by omega), SetBytes_cons, List.length_cons, pow_succ]
      have hv : (Fin.ofNat n : Byte).val = n % 256 := rfl
      rw [hv]
      have hdm := Nat.div_add_mod n 256
      generalize 256 ^ acc.length = P
      generalize SetBytes acc = S
      generalize n / 256 = q at *
      generalize n % 256 = r at *
      subst hdm
      ring

theorem SetBytes_Bytes (n : Nat) : SetBytes (Bytes n) = n := by
  unfold Bytes
  rw [SetBytes_bytesAux n n [] (le_refl n)]
  simp [SetBytes]

theorem bytesAux_length_le (fuel : Nat) : ∀ (n : Nat) (acc : List Byte) (k : Nat), n ≤ fuel →
    n < 256 ^ k → (bytesAux fuel n acc).length ≤ k + acc.length := by
  induction fuel with
  | zero =>
    intro n acc k _ _
    simp [bytesAux]
  | succ f ih =>
    intro n acc k h hk
    by_cases hn : n = 0
    · subst hn
      simp [bytesAux]
    · simp only [bytesAux, if_neg hn]
      cases k with
      | zero =>
        simp only [pow_zero, Nat.lt_one_iff] at hk
        exact absurd hk hn
      | succ k =>
        have hq : n / 256 < 256 ^ k := by
          rw [Nat.div_lt_iff_lt_mul (by decide)]
          rw [pow_succ] at hk
          exact hk
        have := ih (n / 256) (Fin.ofNat n :: acc) k (by omega) hq
        rw [List.length_cons] at this
        omega

theorem Bytes_length_le (n k : Nat) (h : n < 256 ^ k) : (Bytes n).length ≤ k := by
  have := bytesAux_length_le n n [] k (le_refl n) h
  simpa [Bytes] using this

theorem toInt_of_lt (n : Nat) (h : n < 2 ^ 63) : toInt n = (n : Int) := by
  unfold toInt
  have h1 : n % 2 ^ 64 = n := Nat.mod_eq_of_lt (by omega)
  rw [h1, if_pos h]

theorem LeftPadBytes_of_le (s : List Byte) (n : Nat) (h : s.length ≤ n) :
    LeftPadBytes s (n : Int) = List.replicate (n - s.length) (0 : Byte) ++ s := by
  unfold LeftPadBytes
  by_cases h1 : (n : Int) ≤ (s.length : Int)
  · rw [if_pos h1]
    have h2 : n - s.length = 0 := by omega
    rw [h2]
    rfl
  · rw [if_neg h1, Int.toNat_ofNat]

theorem SetBytes_replicate_zero_append (k : Nat) (s : List Byte) :
    SetBytes (List.replicate k (0 : Byte) ++ s) = SetBytes s := by
  rw [SetBytes_append, SetBytes_replicate_zero]
  omega

theorem modexpMod_lt (input : List Byte) : modexpMod input < 256 ^ modexpModLen input := by
  have h := SetBytes_lt (modexpModBytes input)
  unfold modexpModBytes at h
  rw [readPadded_length] at h
  exact h

/-- `bigModExp.Run` when the sum of the first two declared lengths fits in 64
bits and the third is a length that a slice can hold. -/
theorem bigModExp_Run_eq (input : List Byte) (hb : modexpBaseLen input + modexpExpLen input < 2 ^ 64)
    (hm : modexpModLen input < 2 ^ 63) :
    bigModExp.Run input =
      if modexpBaseLen input = 0 ∧ modexpModLen input = 0 then ([], none)
      else if modexpMod input = 0 then (LeftPadBytes [] (toInt (modexpModLen input)), none)
      else (LeftPadBytes (Bytes (SetBytes (getData (modexpData input) 0 (modexpBaseLen input))
          ^ SetBytes (getData (modexpData input) (modexpBaseLen input) (modexpExpLen input))
          % modexpMod input))
        (toInt (modexpModLen input)), none) := by
  unfold bigModExp.Run
  simp only []
  rw [modexp_slice_eq_drop, getData_header input 0, getData_header input 32,
    getData_header input 64]
  have h1 : Uint64 ((SetBytes (readPadded input 0 32) : Nat) : Int) = modexpBaseLen input :=
    Uint64_natCast_of_lt _ (by unfold modexpBaseLen at hb; omega)
  have h2 : Uint64 ((SetBytes (readPadded input 32 32) : Nat) : Int) = modexpExpLen input :=
    Uint64_natCast_of_lt _ (by unfold modexpExpLen at hb; omega)
  have h3 : Uint64 ((SetBytes (readPadded input 64 32) : Nat) : Int) = modexpModLen input :=
    Uint64_natCast_of_lt _ (by unfold modexpModLen at hm; omega)
  rw [h1, h2, h3, Nat.mod_eq_of_lt hb]
  have h4 : SetBytes (getData (modexpData input) (modexpBaseLen input + modexpExpLen input)
      (modexpModLen input)) = modexpMod input := by
    rw [getData_eq_readPadded _ _ _ (by omega)]
    rfl
  rw [h4]
  simp only [BitLen_natCast_eq_zero_iff]
  by_cases hz : modexpBaseLen input = 0 ∧ modexpModLen input = 0
  · rw [if_pos hz, if_pos hz]
  · rw [if_neg hz, if_neg hz]
    by_cases hM : modexpMod input = 0
    · rw [if_pos hM, if_pos hM]
    · rw [if_neg hM, if_neg hM]
      unfold Exp
      rw [if_neg hM]

theorem log2_eq_bitLenAux (n : Nat) : Nat.log2 n = bitLenAux n n - 1 := by
  have h := modexp_msb_eq n
  unfold BitLen at h
  simp only [Int.natAbs_ofNat] at h
  rw [← h]
  split_ifs with h0
  · rfl
  · omega

/-! ## The claims -/

/-- C1: `RunPrecompiledContract` charges `p.RequiredGas(input)` first. If the
charge fails, the result is no output with `ErrOutOfGas`, and the state that
evaluating `p.Run` could touch is returned as it was: `Run` is not evaluated.
If the charge succeeds, the result and the state are exactly those of
`p.Run(input)`. -/
theorem RunPrecompiledContract_charges_first {σ : Type} (p : PrecompiledContract σ)
    (input : List Byte) (c : Contract) (w : σ) :
    ((c.UseGas (p.RequiredGas input)).1 = false →
      RunPrecompiledContract p input c w
        = (([], some VMError.ErrOutOfGas), (c.UseGas (p.RequiredGas input)).2, w)) ∧
    ((c.UseGas (p.RequiredGas input)).1 = true →
      RunPrecompiledContract p input c w
        = ((p.Run input w).1, (c.UseGas (p.RequiredGas input)).2, (p.Run input w).2)) := by
  unfold RunPrecompiledContract
  constructor
  · intro h
    rcases hu : c.UseGas (p.RequiredGas input) with ⟨ok, c'⟩
    rw [hu] at h
    simp only at h
    subst h
    simp only [hu]
  · intro h
    rcases hu : c.UseGas (p.RequiredGas input) with ⟨ok, c'⟩
    rw [hu] at h
    simp only at h
    subst h
    simp only [hu]

/-- C1 at two concrete calls: with 2 gas left a 3-byte input is refused with
`ErrOutOfGas` and the counter stays at 0; with 5 gas left the body runs once. -/
theorem RunPrecompiledContract_charges_first_witness :
    RunPrecompiledContract countingContract [1, 2, 3] { Gas := 2 } 0
        = (([], some VMError.ErrOutOfGas), { Gas := 2 }, 0) ∧
    RunPrecompiledContract countingContract [1, 2, 3] { Gas := 5 } 0
        = (([1, 2, 3], none), { Gas := 2 }, 1) :=
  ⟨(RunPrecompiledContract_charges_first countingContract [1, 2, 3] { Gas := 2 } 0).1 (by decide),
   (RunPrecompiledContract_charges_first countingContract [1, 2, 3] { Gas := 5 } 0).2 (by decide)⟩

/-- C2: whenever the exact value `raw` of the gas formula (header fields,
exponent head, msb, adjusted exponent length, piecewise cost, division by
`ModExpQuadCoeffDiv`) is below `2^64`, `bigModExp.RequiredGas(input) = raw`. -/
theorem bigModExp_RequiredGas_eq_formula (d : Nat) (input : List Byte)
    (hlen : input.length < 2 ^ 63) (_hd : 0 < d) (hraw : modexpRawGas d input < 2 ^ 64) :
    bigModExp.RequiredGas d input = modexpRawGas d input := by
  rw [bigModExp_RequiredGas_eq d input hlen, if_neg (by omega)]

set_option maxRecDepth 100000 in
/-- C2 at `modexpSmallInput` with divisor 20: the formula gives
`1 * 7 / 20 = 0`. -/
theorem bigModExp_RequiredGas_eq_formula_witness :
    modexpRawGas 20 modexpSmallInput < 2 ^ 64 ∧
    bigModExp.RequiredGas 20 modexpSmallInput = modexpRawGas 20 modexpSmallInput ∧
    bigModExp.RequiredGas 1 modexpSmallInput = 7 :=
  have h20 : modexpRawGas 20 modexpSmallInput < 2 ^ 64 := by
    simp only [modexpRawGas, modexpAdjExpLen, modexpMsb, log2_eq_bitLenAux]
    decide
  have h1 : modexpRawGas 1 modexpSmallInput = 7 := by
    simp only [modexpRawGas, modexpAdjExpLen, modexpMsb, log2_eq_bitLenAux]
    decide
  ⟨h20, bigModExp_RequiredGas_eq_formula 20 modexpSmallInput (by decide) (by decide) h20,
    (bigModExp_RequiredGas_eq_formula 1 modexpSmallInput (by decide) (by decide)
      (by rw [h1]; decide)).trans h1⟩

/-- C3: whenever the exact value of the gas formula exceeds `2^64 - 1`,
`bigModExp.RequiredGas` returns exactly `2^64 - 1`. -/
theorem bigModExp_RequiredGas_saturates (d : Nat) (input : List Byte)
    (hlen : input.length < 2 ^ 63) (_hd : 0 < d) (hraw : 2 ^ 64 - 1 < modexpRawGas d input) :
    bigModExp.RequiredGas d input = 2 ^ 64 - 1 := by
  rw [bigModExp_RequiredGas_eq d input hlen, if_pos (by omega)]
  rfl

theorem modexpHugeExpInput_raw : modexpRawGas 20 modexpHugeExpInput = 8 * (2 ^ 68 - 32) / 20 := by
  simp only [modexpRawGas, modexpAdjExpLen, modexpMsb, log2_eq_bitLenAux]
  decide

set_option maxRecDepth 100000 in
/-- C3 at `modexpHugeExpInput` with divisor 20: the formula gives
`8 * (2^68 - 32) / 20`, above `2^64 - 1`. -/
theorem bigModExp_RequiredGas_saturates_witness :
    2 ^ 64 - 1 < modexpRawGas 20 modexpHugeExpInput ∧
    bigModExp.RequiredGas 20 modexpHugeExpInput = 2 ^ 64 - 1 :=
  have h : 2 ^ 64 - 1 < modexpRawGas 20 modexpHugeExpInput := by
    rw [modexpHugeExpInput_raw]; decide
  ⟨h, bigModExp_RequiredGas_saturates 20 modexpHugeExpInput (by decide) (by decide) h⟩

/-- C4: when the declared lengths sum to less than `2^31`, are not both
`baseLen = 0` and `modLen = 0`, and the modulus `M` is non-zero, `bigModExp.Run`
returns no error and an output of exactly `modLen` bytes whose big-endian value
is `B ^ E mod M`: the minimal encoding of that value preceded by zero bytes. -/
theorem bigModExp_Run_computes_modexp (input : List Byte)
    (hsum : modexpBaseLen input + modexpExpLen input + modexpModLen input < 2 ^ 31)
    (hnz : ¬ (modexpBaseLen input = 0 ∧ modexpModLen input = 0))
    (hM : modexpMod input ≠ 0) :
    ∃ out : List Byte, bigModExp.Run input = (out, none) ∧
      out.length = modexpModLen input ∧
      SetBytes out = modexpBase input ^ modexpExp input % modexpMod input ∧
      out = List.replicate (modexpModLen input
              - (Bytes (modexpBase input ^ modexpExp input % modexpMod input)).length) (0 : Byte)
            ++ Bytes (modexpBase input ^ modexpExp input % modexpMod input) := by
  have hrun := bigModExp_Run_eq input (by omega) (by omega)
  rw [if_neg hnz, if_neg hM, toInt_of_lt _ (by omega),
    getData_eq_readPadded _ 0 _ (by omega), getData_eq_readPadded _ _ _ (by omega)] at hrun
  have hB : SetBytes (readPadded (modexpData input) 0 (modexpBaseLen input))
      = modexpBase input := rfl
  have hE : SetBytes (readPadded (modexpData input) (modexpBaseLen input) (modexpExpLen input))
      = modexpExp input := rfl
  rw [hB, hE] at hrun
  have hv : modexpBase input ^ modexpExp input % modexpMod input < 256 ^ modexpModLen input :=
    lt_trans (Nat.mod_lt _ (Nat.pos_of_ne_zero hM)) (modexpMod_lt input)
  have hl := Bytes_length_le _ _ hv
  rw [LeftPadBytes_of_le _ _ hl] at hrun
  refine ⟨_, hrun, ?_, ?_, rfl⟩
  · rw [List.length_append, List.length_replicate]
    omega
  · rw [SetBytes_replicate_zero_append, SetBytes_Bytes]

set_option maxRecDepth 100000 in
/-- C4 at base 2, exponent 2, modulus 5 with `modLen = 2`: the output is 4
left-padded to two bytes. -/
theorem bigModExp_Run_computes_modexp_witness :
    modexpBase modexpTwoTwoFive = 2 ∧ modexpExp modexpTwoTwoFive = 2 ∧
    modexpMod modexpTwoTwoFive = 5 ∧ modexpModLen modexpTwoTwoFive = 2 ∧
    bigModExp.Run modexpTwoTwoFive = ([0, 4], none) ∧
    ∃ out : List Byte, bigModExp.Run modexpTwoTwoFive = (out, none) ∧
      out.length = modexpModLen modexpTwoTwoFive ∧
      SetBytes out = modexpBase modexpTwoTwoFive ^ modexpExp modexpTwoTwoFive
        % modexpMod modexpTwoTwoFive ∧
      out = List.replicate (modexpModLen modexpTwoTwoFive
              - (Bytes (modexpBase modexpTwoTwoFive ^ modexpExp modexpTwoTwoFive
                  % modexpMod modexpTwoTwoFive)).length) (0 : Byte)
            ++ Bytes (modexpBase modexpTwoTwoFive ^ modexpExp modexpTwoTwoFive
                % modexpMod modexpTwoTwoFive) :=
  ⟨by decide, by decide, by decide, by decide, by decide,
    bigModExp_Run_computes_modexp modexpTwoTwoFive (by decide) (by decide) (by decide)⟩

set_option maxRecDepth 100000 in
/-- C5 fails as stated: at `modexpWrapInput` the declared `baseLen` and
`expLen` are `2^63` each and `modLen` is 1, the modulus byte at offset
`baseLen + expLen = 2^64` is past the end and so zero, yet `bigModExp.Run` adds
the two lengths in 64 bits, reads the modulus at offset 0 (the byte 2) and
returns the byte 1, not one zero byte. -/
theorem bigModExp_Run_zero_modulus_counterexample :
    modexpBaseLen modexpWrapInput < 2 ^ 64 ∧ modexpExpLen modexpWrapInput < 2 ^ 64 ∧
    modexpModLen modexpWrapInput < 2 ^ 31 ∧
    (∀ b ∈ modexpModBytes modexpWrapInput, b = 0) ∧
    bigModExp.Run modexpWrapInput = ([1], none) ∧
    bigModExp.Run modexpWrapInput
      ≠ (List.replicate (modexpModLen modexpWrapInput) (0 : Byte), none) := by
  refine ⟨by decide, by decide, by decide, by decide, by decide, by decide⟩

/-- C5, amended: when the declared `baseLen` and `expLen` sum to less than
`2^64` and the declared `modLen` is below `2^31`, and the modulus bytes (the
`modLen` bytes at offset `baseLen + expLen` after the header, zero past the end)
are all zero, `bigModExp.Run` returns success with exactly `modLen` zero
bytes. -/
theorem bigModExp_Run_zero_modulus (input : List Byte)
    (hsum : modexpBaseLen input + modexpExpLen input < 2 ^ 64)
    (hm : modexpModLen input < 2 ^ 31)
    (hz : ∀ b ∈ modexpModBytes input, b = 0) :
    bigModExp.Run input = (List.replicate (modexpModLen input) (0 : Byte), none) := by
  have hrun := bigModExp_Run_eq input hsum (by omega)
  have hM : modexpMod input = 0 := (SetBytes_eq_zero_iff _).mpr hz
  rw [hrun]
  by_cases h0 : modexpBaseLen input = 0 ∧ modexpModLen input = 0
  · rw [if_pos h0, h0.2]
    rfl
  · rw [if_neg h0, if_pos hM, toInt_of_lt _ (by omega), LeftPadBytes_of_le _ _ (by simp)]
    simp

set_option maxRecDepth 100000 in
/-- C5, amended, at `modexpZeroModInput`: base 7, exponent 2, three missing
modulus bytes; the output is three zero bytes. -/
theorem bigModExp_Run_zero_modulus_witness :
    modexpBaseLen modexpZeroModInput + modexpExpLen modexpZeroModInput < 2 ^ 64 ∧
    modexpModLen modexpZeroModInput = 3 ∧
    (∀ b ∈ modexpModBytes modexpZeroModInput, b = 0) ∧
    bigModExp.Run modexpZeroModInput = ([0, 0, 0], none) :=
  ⟨by decide, by decide, by decide,
    bigModExp_Run_zero_modulus modexpZeroModInput (by decide) (by decide) (by decide)⟩

set_option maxRecDepth 100000 in
/-- C6 fails as stated: at `modexpHugeExpInput` with divisor 20 the exact gas
value exceeds `2^64 - 1` and the required gas is `2^64 - 1`, but a gas account
holding exactly `2^64 - 1` pays it: the charge succeeds, the account drops to 0
and the body runs, returning one zero byte and no error. -/
theorem RunPrecompiledContract_saturated_counterexample :
    2 ^ 64 - 1 < modexpRawGas 20 modexpHugeExpInput ∧
    RunPrecompiledContract (bigModExp Unit 20) modexpHugeExpInput { Gas := 2 ^ 64 - 1 } ()
      = (([0], none), { Gas := 0 }, ()) := by
  constructor
  · rw [modexpHugeExpInput_raw]; decide
  · decide

/-- C6, amended: when the exact gas value exceeds `2^64 - 1`, for every gas
account whose remaining budget is below `2^64 - 1`, `RunPrecompiledContract` on
`bigModExp` fails with `ErrOutOfGas`, leaves the account as it was and does not
evaluate the body; with a remaining budget of exactly `2^64 - 1` the saturated
charge succeeds, the account drops to 0 and the result is that of
`bigModExp.Run`. -/
theorem RunPrecompiledContract_saturated_out_of_gas {σ : Type} (d : Nat) (input : List Byte)
    (c : Contract) (w : σ) (hlen : input.length < 2 ^ 63) (_hd : 0 < d)
    (hraw : 2 ^ 64 - 1 < modexpRawGas d input) :
    (c.Gas < 2 ^ 64 - 1 →
      RunPrecompiledContract (bigModExp σ d) input c w
        = (([], some VMError.ErrOutOfGas), c, w)) ∧
    (c.Gas = 2 ^ 64 - 1 →
      RunPrecompiledContract (bigModExp σ d) input c w
        = (bigModExp.Run input, { Gas := 0 }, w)) := by
  have hg : (bigModExp σ d).RequiredGas input = 2 ^ 64 - 1 := by
    show bigModExp.RequiredGas d input = 2 ^ 64 - 1
    rw [bigModExp_RequiredGas_eq d input hlen, if_pos (by omega)]
    rfl
  constructor
  · intro hc
    unfold RunPrecompiledContract
    simp only [hg, Contract.UseGas, if_pos hc]
  · intro hc
    unfold RunPrecompiledContract
    simp only [hg, Contract.UseGas, hc, lt_irrefl, if_false, Nat.sub_self]
    rfl

set_option maxRecDepth 100000 in
/-- C6, amended, at `modexpHugeExpInput` and divisor 20: refused with `2^64 - 2`
gas, run with `2^64 - 1` gas. -/
theorem RunPrecompiledContract_saturated_out_of_gas_witness :
    2 ^ 64 - 1 < modexpRawGas 20 modexpHugeExpInput ∧
    RunPrecompiledContract (bigModExp Unit 20) modexpHugeExpInput { Gas := 2 ^ 64 - 2 } ()
      = (([], some VMError.ErrOutOfGas), { Gas := 2 ^ 64 - 2 }, ()) ∧
    RunPrecompiledContract (bigModExp Unit 20) modexpHugeExpInput { Gas := 2 ^ 64 - 1 } ()
      = (bigModExp.Run modexpHugeExpInput, { Gas := 0 }, ()) :=
  have h : 2 ^ 64 - 1 < modexpRawGas 20 modexpHugeExpInput := by
    rw [modexpHugeExpInput_raw]; decide
  ⟨h,
    (RunPrecompiledContract_saturated_out_of_gas 20 modexpHugeExpInput { Gas := 2 ^ 64 - 2 } ()
      (by decide) (by decide) h).1 (by decide),
    (RunPrecompiledContract_saturated_out_of_gas 20 modexpHugeExpInput { Gas := 2 ^ 64 - 1 } ()
      (by decide) (by decide) h).2 (by decide)⟩

theorem modexpData_append_zeros (input : List Byte) (k : Nat) :
    modexpData (input ++ List.replicate k (0 : Byte))
      = modexpData input ++ List.replicate (k - (96 - input.length)) (0 : Byte) := by
  unfold modexpData
  rw [List.drop_append_eq_append_drop, List.drop_replicate]

theorem modexpExpHead_append_zeros (input : List Byte) (k : Nat) :
    modexpExpHead (input ++ List.replicate k (0 : Byte)) = modexpExpHead input := by
  unfold modexpExpHead modexpBaseLen modexpExpLen
  rw [modexpData_append_zeros]
  simp only [readPadded_append_zeros]
  by_cases h1 : (modexpData input).length ≤ SetBytes (readPadded input 0 32)
  · rw [if_pos h1]
    split_ifs with h2
    · rfl
    · rw [readPadded_of_length_le _ _ _ h1, SetBytes_replicate_zero]
  · rw [if_neg h1, if_neg]
    rw [List.length_append]
    omega

theorem modexpRawGas_append_zeros (d : Nat) (input : List Byte) (k : Nat) :
    modexpRawGas d (input ++ List.replicate k (0 : Byte)) = modexpRawGas d input := by
  unfold modexpRawGas modexpAdjExpLen modexpMsb
  rw [modexpExpHead_append_zeros]
  unfold modexpBaseLen modexpExpLen modexpModLen
  simp only [readPadded_append_zeros]

theorem Uint64_natCast (n : Nat) : Uint64 (n : Int) = n % 2 ^ 64 := by
  simp only [Uint64, Int.natAbs_ofNat]

set_option maxRecDepth 100000 in
/-- C7 fails as stated: `modexpHugeModInput` declares `modLen = 2^63`, a length
whose `int` value is negative, so the three modulus bytes that are read are not
padded: the modulus is 5 and the output is the byte 4; with one zero byte
appended the modulus bytes are `5, 0`, the modulus is 1280 and the output is the
byte 9. -/
theorem bigModExp_right_padding_counterexample :
    bigModExp.Run modexpHugeModInput = ([4], none) ∧
    bigModExp.Run (modexpHugeModInput ++ List.replicate 1 (0 : Byte)) = ([9], none) ∧
    bigModExp.Run (modexpHugeModInput ++ List.replicate 1 (0 : Byte))
      ≠ bigModExp.Run modexpHugeModInput := by
  refine ⟨by decide, by decide, by decide⟩

/-- C7, amended: appending `k` zero bytes to the input does not change
`bigModExp.RequiredGas`; and it does not change the result of `bigModExp.Run`
when the declared `baseLen`, `expLen` and `modLen`, narrowed to 64 bits as `Run`
narrows them, are each below `2^63`. -/
theorem bigModExp_right_padding_invariant (d : Nat) (input : List Byte) (k : Nat)
    (hlen : input.length + k < 2 ^ 63) :
    bigModExp.RequiredGas d (input ++ List.replicate k (0 : Byte))
      = bigModExp.RequiredGas d input ∧
    (modexpBaseLen input % 2 ^ 64 < 2 ^ 63 → modexpExpLen input % 2 ^ 64 < 2 ^ 63 →
      modexpModLen input % 2 ^ 64 < 2 ^ 63 →
      bigModExp.Run (input ++ List.replicate k (0 : Byte)) = bigModExp.Run input) := by
  constructor
  · rw [bigModExp_RequiredGas_eq d _ (by rw [List.length_append, List.length_replicate]; exact hlen),
      bigModExp_RequiredGas_eq d input (by omega), modexpRawGas_append_zeros]
  · intro hb he hm
    unfold bigModExp.Run
    simp only []
    rw [modexp_slice_eq_drop, modexp_slice_eq_drop, modexpData_append_zeros]
    simp only [getData_header, readPadded_append_zeros, Uint64_natCast]
    have hB : SetBytes (readPadded input 0 32) % 2 ^ 64 % 2 ^ 64 < 2 ^ 63 := by
      rw [Nat.mod_mod]; exact hb
    have hE : SetBytes (readPadded input 32 32) % 2 ^ 64 % 2 ^ 64 < 2 ^ 63 := by
      rw [Nat.mod_mod]; exact he
    have hM : SetBytes (readPadded input 64 32) % 2 ^ 64 % 2 ^ 64 < 2 ^ 63 := by
      rw [Nat.mod_mod]; exact hm
    simp only [getData_eq_readPadded _ _ _ hB, getData_eq_readPadded _ _ _ hE,
      getData_eq_readPadded _ _ _ hM, readPadded_append_zeros]

set_option maxRecDepth 100000 in
/-- C7, amended, at `modexpTwoTwoFive` without its last three bytes (the
exponent and the modulus are cut) followed by 40 zero bytes, divisor 20. -/
theorem bigModExp_right_padding_invariant_witness :
    bigModExp.RequiredGas 20 (modexpTwoTwoFive.take 97 ++ List.replicate 40 (0 : Byte))
      = bigModExp.RequiredGas 20 (modexpTwoTwoFive.take 97) ∧
    bigModExp.Run (modexpTwoTwoFive.take 97 ++ List.replicate 40 (0 : Byte))
      = bigModExp.Run (modexpTwoTwoFive.take 97) ∧
    bigModExp.Run (modexpTwoTwoFive.take 97) = ([0, 0], none) :=
  ⟨(bigModExp_right_padding_invariant 20 (modexpTwoTwoFive.take 97) 40 (by decide)).1,
   (bigModExp_right_padding_invariant 20 (modexpTwoTwoFive.take 97) 40 (by decide)).2
     (by decide) (by decide) (by decide),
   by decide⟩

theorem exactUint64_natCast (n : Nat) (h : n < 2 ^ 64) : exactUint64 (n : Int) = some n := by
  unfold exactUint64
  rw [if_pos ⟨Int.ofNat_nonneg n, by exact_mod_cast h⟩, Int.toNat_ofNat]

/-- C8: `bigModExp.RequiredGas` is total. The strict evaluation, in which the
slice of the header needs its bound, every narrowing to 64 bits needs a value
in `[0, 2^64)` and the division needs a non-zero divisor, never fails and
yields the value of `bigModExp.RequiredGas`, which is below `2^64`. -/
theorem bigModExp_RequiredGas_total (d : Nat) (input : List Byte)
    (hlen : input.length < 2 ^ 63) (hd : 0 < d) :
    bigModExp.RequiredGasStrict d input = some (bigModExp.RequiredGas d input) ∧
    bigModExp.RequiredGas d input < 2 ^ 64 := by
  have hdl := modexpData_length_lt input hlen
  have hlt : bigModExp.RequiredGas d input < 2 ^ 64 := by
    rw [bigModExp_RequiredGas_eq d input hlen]
    split_ifs with h
    · decide
    · omega
  refine ⟨?_, hlt⟩
  rw [bigModExp_RequiredGas_eq d input hlen]
  unfold bigModExp.RequiredGasStrict
  have hslice : (if input.length > 96 then
        (if 96 ≤ input.length then some (input.drop 96) else none)
      else some (input.take 0)) = some (modexpData input) := by
    rw [← modexp_slice_eq_drop]
    by_cases h : input.length > 96
    · rw [if_pos h, if_pos h, if_pos (by omega)]
    · rw [if_neg h, if_neg h]
  have hhead : (if ((modexpData input).length : Int)
          ≤ ((SetBytes (readPadded input 0 32) : Nat) : Int)
        then some (0 : Int)
      else if ((SetBytes (readPadded input 32 32) : Nat) : Int) > 32 then
        (exactUint64 ((SetBytes (readPadded input 0 32) : Nat) : Int)).bind fun b =>
          some ((SetBytes (getData (modexpData input) b 32) : Nat) : Int)
      else
        (exactUint64 ((SetBytes (readPadded input 0 32) : Nat) : Int)).bind fun b =>
        (exactUint64 ((SetBytes (readPadded input 32 32) : Nat) : Int)).bind fun e =>
          some ((SetBytes (getData (modexpData input) b e) : Nat) : Int))
      = some (modexpExpHead input : Int) := by
    unfold modexpExpHead modexpBaseLen modexpExpLen
    by_cases h1 : (modexpData input).length ≤ SetBytes (readPadded input 0 32)
    · rw [if_pos h1, if_pos (by exact_mod_cast h1)]
      rfl
    · rw [if_neg h1, if_neg (by exact_mod_cast h1), exactUint64_natCast _ (by omega)]
      by_cases h2 : SetBytes (readPadded input 32 32) > 32
      · rw [if_pos (by exact_mod_cast h2), Nat.min_eq_right (le_of_lt h2), Option.some_bind,
          getData_eq_readPadded _ _ 32 (by decide)]
      · rw [if_neg (by exact_mod_cast h2), exactUint64_natCast _ (by omega),
          Nat.min_eq_left (by omega), Option.some_bind, Option.some_bind,
          getData_eq_readPadded _ _ _ (by omega)]
  simp only []
  rw [getData_header input 0, getData_header input 32, getData_header input 64,
    hslice, Option.some_bind, hhead, Option.some_bind, if_neg (Nat.pos_iff_ne_zero.mp hd),
    Option.some_bind]
  rw [modexp_msb_eq, modexp_adjExpLen_eq, BigMax_natCast]
  have h2 := modexp_cost_eq (max (SetBytes (readPadded input 64 32)) (SetBytes (readPadded input 0 32)))
  rw [h2]
  have h3 : BigMax ((8 * (SetBytes (readPadded input 32 32) - 32) + (modexpExpHead input).log2 : Nat) : Int) 1
      = ((max (8 * (SetBytes (readPadded input 32 32) - 32) + (modexpExpHead input).log2) 1 : Nat) : Int) := by
    have := BigMax_natCast (8 * (SetBytes (readPadded input 32 32) - 32) + (modexpExpHead input).log2) 1
    exact_mod_cast this
  rw [h3]
  have h4 : ∀ a b c : Nat, ((a : Int) * (b : Int) / (c : Int)) = ((a * b / c : Nat) : Int) := by
    intro a b c; push_cast; rfl
  rw [h4]
  have h5 : modexpCost (max (SetBytes (readPadded input 64 32)) (SetBytes (readPadded input 0 32)))
      * max (8 * (SetBytes (readPadded input 32 32) - 32) + (modexpExpHead input).log2) 1 / d
      = modexpRawGas d input := rfl
  rw [h5]
  by_cases hb : 2 ^ 64 ≤ modexpRawGas d input
  · rw [if_pos ((BitLen_natCast_gt_iff _).mpr hb), if_pos hb]
  · rw [if_neg (fun h => hb ((BitLen_natCast_gt_iff _).mp h)), if_neg hb]
    exact exactUint64_natCast _ (by omega)

set_option maxRecDepth 100000 in
/-- C8 at the empty input, at `modexpSmallInput` and at `modexpHugeExpInput`
(a declared exponent length of `2^68`), divisor 20. -/
theorem bigModExp_RequiredGas_total_witness :
    (bigModExp.RequiredGasStrict 20 [] = some (bigModExp.RequiredGas 20 []) ∧
      bigModExp.RequiredGas 20 [] < 2 ^ 64) ∧
    (bigModExp.RequiredGasStrict 20 modexpSmallInput
        = some (bigModExp.RequiredGas 20 modexpSmallInput) ∧
      bigModExp.RequiredGas 20 modexpSmallInput < 2 ^ 64) ∧
    (bigModExp.RequiredGasStrict 20 modexpHugeExpInput
        = some (bigModExp.RequiredGas 20 modexpHugeExpInput) ∧
      bigModExp.RequiredGas 20 modexpHugeExpInput < 2 ^ 64) :=
  ⟨bigModExp_RequiredGas_total 20 [] (by decide) (by decide),
   bigModExp_RequiredGas_total 20 modexpSmallInput (by decide) (by decide),
   bigModExp_RequiredGas_total 20 modexpHugeExpInput (by decide) (by decide)⟩

/-! ## ecrecover -/

theorem RightPadBytes_eq_ecrecoverPadded (input : List Byte) :
    RightPadBytes input 128 = ecrecoverPadded input := by
  unfold RightPadBytes ecrecoverPadded
  by_cases h : 128 ≤ input.length
  · rw [if_pos h]
    have h0 : 128 - input.length = 0 := by omega
    rw [h0]
    simp
  · rw [if_neg h]

theorem ecrecoverPadded_length (input : List Byte) : 128 ≤ (ecrecoverPadded input).length := by
  unfold ecrecoverPadded
  rw [List.length_append, List.length_replicate]
  omega

theorem allZero_eq_false_of_getD (p : List Byte) (i : Nat) (h1 : 32 ≤ i) (h2 : i < 63)
    (hne : p.getD i 0 ≠ 0) : allZero ((p.drop 32).take 31) = false := by
  by_contra hall
  rw [Bool.not_eq_false] at hall
  unfold allZero at hall
  rw [List.all_eq_true] at hall
  by_cases hi : i < p.length
  · have hmem : p.getD i 0 ∈ (p.drop 32).take 31 := by
      rw [List.getD_eq_getElem _ _ hi]
      have hidx : i - 32 < ((p.drop 32).take 31).length := by
        rw [List.length_take, List.length_drop]
        omega
      have hget : ((p.drop 32).take 31)[i - 32] = p[i] := by
        rw [List.getElem_take, List.getElem_drop]
        congr 1
        omega
      rw [← hget]
      exact List.getElem_mem _
    have := hall _ hmem
    simp only [beq_iff_eq] at this
    exact hne this
  · rw [List.getD_eq_default _ _ (by omega)] at hne
    exact hne rfl

set_option maxRecDepth 100000 in
theorem byte_sub27_valid_iff : ∀ b : Byte, (b - 27 = 0 ∨ b - 27 = 1) ↔ (b = 27 ∨ b = 28) := by
  decide

theorem ValidateSignatureValues_false_iff (v : Byte) (r s : Nat) :
    ValidateSignatureValues v r s false = true
      ↔ (0 < r ∧ 0 < s ∧ r < secp256k1_N ∧ s < secp256k1_N ∧ (v = 0 ∨ v = 1)) := by
  unfold ValidateSignatureValues
  by_cases h : r < 1 ∨ s < 1
  · rw [if_pos h]
    constructor
    · intro hf; exact absurd hf (by decide)
    · intro hf; omega
  · rw [if_neg h, if_neg (by simp), decide_eq_true_iff]
    constructor
    · intro hf; exact ⟨by omega, by omega, hf⟩
    · intro hf; exact hf.2.2

/-- What `ecrecover.Run` does once the validation is characterised: an input
that fails it yields the empty output, any other the result of the recovery. -/
theorem ecrecover_Run_eq (E : List Byte → List Byte → Option (List Byte))
    (K : List Byte → List Byte) (input : List Byte) :
    ecrecover.Run E K input =
      if allZero (((ecrecoverPadded input).drop 32).take 31) = true ∧
          ValidateSignatureValues ((ecrecoverPadded input).getD 63 0 - 27)
            (ecrecoverR input) (ecrecoverS input) false = true then
        match E ((ecrecoverPadded input).take 32)
            (((ecrecoverPadded input).drop 64).take 64
              ++ [(ecrecoverPadded input).getD 63 0 - 27]) with
        | none => ([], none)
        | some pubKey => (LeftPadBytes ((K (pubKey.drop 1)).drop 12) 32, none)
      else ([], none) := by
  unfold ecrecover.Run ecrecoverR ecrecoverS
  simp only []
  rw [RightPadBytes_eq_ecrecoverPadded]
  generalize allZero (((ecrecoverPadded input).drop 32).take 31) = a
  generalize ValidateSignatureValues ((ecrecoverPadded input).getD 63 0 - 27)
    (SetBytes (((ecrecoverPadded input).drop 64).take 32))
    (SetBytes (((ecrecoverPadded input).drop 96).take 32)) false = b
  cases a <;> cases b <;> rfl

set_option maxRecDepth 100000 in
/-- C9 fails as stated: `ecrecoverHighSInput` has an `s` above half the group
order, passes the validation (`Run` asks for it with the low-s rule switched
off), and with the public key recovered from it and that key's hash the output
is the 32-byte address ending in `a94f...bf0b`, not the empty output. -/
theorem ecrecover_Run_high_s_counterexample :
    secp256k1_halfN < ecrecoverS ecrecoverHighSInput ∧
    ecrecover.Run recoverHighSKey keccakHighSKey ecrecoverHighSInput
      = (List.replicate 12 (0 : Byte) ++ ecrecoverHighSKeyHash.drop 12, none) ∧
    ecrecover.Run recoverHighSKey keccakHighSKey ecrecoverHighSInput ≠ ([], none) := by
  refine ⟨by decide, by decide, by decide⟩

/-- C9, amended: for every input whose `s` value (bytes `[96, 128)` of the
zero-padded input, big-endian) is greater than or equal to the secp256k1 group
order, `ecrecover.Run` returns a successful call with empty output. -/
theorem ecrecover_Run_rejects_s_above_order (E : List Byte → List Byte → Option (List Byte))
    (K : List Byte → List Byte) (input : List Byte)
    (hs : secp256k1_N ≤ ecrecoverS input) :
    ecrecover.Run E K input = ([], none) := by
  rw [ecrecover_Run_eq, if_neg]
  intro h
  have := (ValidateSignatureValues_false_iff _ _ _).mp h.2
  omega

set_option maxRecDepth 100000 in
/-- C9, amended, at `ecrecoverMaxSInput` (`s = 2^256 - 1`). -/
theorem ecrecover_Run_rejects_s_above_order_witness :
    secp256k1_N ≤ ecrecoverS ecrecoverMaxSInput ∧
    ecrecover.Run recoverHighSKey keccakHighSKey ecrecoverMaxSInput = ([], none) :=
  ⟨by decide,
    ecrecover_Run_rejects_s_above_order recoverHighSKey keccakHighSKey ecrecoverMaxSInput
      (by decide)⟩

/-- C10: after zero right-padding to 128 bytes, if a byte in positions
`[32, 63)` is non-zero, or byte 63 is neither 27 nor 28, or `r = 0`, or `s = 0`,
then `ecrecover.Run` returns the empty output and no error; so it does for
`r = s = 0` and for every input shorter than 64 bytes. -/
theorem ecrecover_Run_rejects_invalid (E : List Byte → List Byte → Option (List Byte))
    (K : List Byte → List Byte) (input : List Byte)
    (h : (∃ i, 32 ≤ i ∧ i < 63 ∧ (ecrecoverPadded input).getD i 0 ≠ 0) ∨
      ((ecrecoverPadded input).getD 63 0 ≠ 27 ∧ (ecrecoverPadded input).getD 63 0 ≠ 28) ∨
      ecrecoverR input = 0 ∨ ecrecoverS input = 0 ∨ input.length < 64) :
    ecrecover.Run E K input = ([], none) := by
  rw [ecrecover_Run_eq, if_neg]
  intro hv
  have hval := (ValidateSignatureValues_false_iff _ _ _).mp hv.2
  have hb := (byte_sub27_valid_iff _).mp hval.2.2.2.2
  rcases h with ⟨i, h1, h2, hne⟩ | h | h | h | h
  · have := allZero_eq_false_of_getD _ i h1 h2 hne
    rw [this] at hv
    exact absurd hv.1 (by decide)
  · rcases hb with hb | hb
    · exact h.1 hb
    · exact h.2 hb
  · omega
  · omega
  · have h63 : (ecrecoverPadded input).getD 63 0 = 0 := by
      unfold ecrecoverPadded
      rw [List.getD_eq_getElem _ _ (by rw [List.length_append, List.length_replicate]; omega),
        List.getElem_append_right (by omega), List.getElem_replicate]
    rw [h63] at hb
    revert hb
    decide

set_option maxRecDepth 100000 in
/-- C10 at `ecrecoverZeroSigInput` (`r = s = 0`), at the first 63 bytes of
`ecrecoverHighSInput` (shorter than 64 bytes) and at the empty input. -/
theorem ecrecover_Run_rejects_invalid_witness :
    ecrecoverR ecrecoverZeroSigInput = 0 ∧ ecrecoverS ecrecoverZeroSigInput = 0 ∧
    ecrecover.Run recoverHighSKey keccakHighSKey ecrecoverZeroSigInput = ([], none) ∧
    ecrecover.Run recoverHighSKey keccakHighSKey (ecrecoverHighSInput.take 63) = ([], none) ∧
    ecrecover.Run recoverHighSKey keccakHighSKey [] = ([], none) :=
  ⟨by decide, by decide,
    ecrecover_Run_rejects_invalid recoverHighSKey keccakHighSKey ecrecoverZeroSigInput
      (Or.inr (Or.inr (Or.inl (by decide)))),
    ecrecover_Run_rejects_invalid recoverHighSKey keccakHighSKey (ecrecoverHighSInput.take 63)
      (Or.inr (Or.inr (Or.inr (Or.inr (by decide))))),
    ecrecover_Run_rejects_invalid recoverHighSKey keccakHighSKey []
      (Or.inr (Or.inr (Or.inr (Or.inr (by decide)))))⟩

/-! ## ecrecover: the shape of the output and the caller's buffer -/

theorem LeftPadBytes_hash_tail (x : List Byte) (hx : x.length = 32) :
    LeftPadBytes (x.drop 12) 32 = List.replicate 12 (0 : Byte) ++ x.drop 12 := by
  have hl : (x.drop 12).length ≤ 32 := by
    rw [List.length_drop]
    omega
  have h := LeftPadBytes_of_le (x.drop 12) 32 hl
  have h20 : 32 - (x.drop 12).length = 12 := by
    rw [List.length_drop]
    omega
  rw [h20] at h
  exact_mod_cast h

/-- C11: `ecrecover.Run` never returns an error. Its output is either empty
or exactly 32 bytes, of which the first 12 are zero and the last 20 are the last
20 bytes of the 32-byte hash of the recovered public key without its first
byte; when the recovery of the public key fails the output is empty. -/
theorem ecrecover_Run_output_shape (E : List Byte → List Byte → Option (List Byte))
    (K : List Byte → List Byte) (input : List Byte)
    (hK : ∀ d, (K d).length = 32)
    (_hE : ∀ hash sig pubKey, E hash sig = some pubKey → pubKey.length = 65) :
    (ecrecover.Run E K input).2 = none ∧
    ((ecrecover.Run E K input).1 = [] ∨
      ∃ pubKey, E ((ecrecoverPadded input).take 32)
          (((ecrecoverPadded input).drop 64).take 64
            ++ [(ecrecoverPadded input).getD 63 0 - 27]) = some pubKey ∧
        (ecrecover.Run E K input).1.length = 32 ∧
        (ecrecover.Run E K input).1.take 12 = List.replicate 12 (0 : Byte) ∧
        (ecrecover.Run E K input).1.drop 12 = (K (pubKey.drop 1)).drop 12) ∧
    (E ((ecrecoverPadded input).take 32)
        (((ecrecoverPadded input).drop 64).take 64
          ++ [(ecrecoverPadded input).getD 63 0 - 27]) = none →
      (ecrecover.Run E K input).1 = []) := by
  rw [ecrecover_Run_eq]
  by_cases hv : allZero (((ecrecoverPadded input).drop 32).take 31) = true ∧
      ValidateSignatureValues ((ecrecoverPadded input).getD 63 0 - 27)
        (ecrecoverR input) (ecrecoverS input) false = true
  · rw [if_pos hv]
    cases hE : E ((ecrecoverPadded input).take 32)
        (((ecrecoverPadded input).drop 64).take 64
          ++ [(ecrecoverPadded input).getD 63 0 - 27]) with
    | none => exact ⟨rfl, Or.inl rfl, fun _ => rfl⟩
    | some pubKey =>
      dsimp only
      rw [LeftPadBytes_hash_tail _ (hK _)]
      refine ⟨rfl, Or.inr ⟨pubKey, rfl, ?_, ?_, ?_⟩, fun h => by cases h⟩
      · rw [List.length_append, List.length_replicate, List.length_drop, hK]
      · rw [List.take_left' (List.length_replicate _ _)]
      · rw [List.drop_left' (List.length_replicate _ _)]
  · rw [if_neg hv]
    exact ⟨rfl, Or.inl rfl, fun _ => rfl⟩

theorem keccakHighSKey_length (d : List Byte) : (keccakHighSKey d).length = 32 := by
  unfold keccakHighSKey
  split_ifs
  · decide
  · rw [List.length_replicate]

theorem recoverHighSKey_length (hash sig pubKey : List Byte)
    (h : recoverHighSKey hash sig = some pubKey) : pubKey.length = 65 := by
  unfold recoverHighSKey at h
  split_ifs at h
  · cases h
    decide

set_option maxRecDepth 100000 in
/-- C11 at `ecrecoverHighSInput`, where the recovery succeeds and the output is
12 zero bytes and the address, and at `ecrecoverNoKeyInput`, whose signature
values pass the validation and for which the recovery answers with its error. -/
theorem ecrecover_Run_output_shape_witness :
    ecrecover.Run recoverHighSKey keccakHighSKey ecrecoverHighSInput
      = (List.replicate 12 (0 : Byte) ++ ecrecoverHighSKeyHash.drop 12, none) ∧
    ValidateSignatureValues ((ecrecoverPadded ecrecoverNoKeyInput).getD 63 0 - 27)
      (ecrecoverR ecrecoverNoKeyInput) (ecrecoverS ecrecoverNoKeyInput) false = true ∧
    ecrecover.Run recoverHighSKey keccakHighSKey ecrecoverNoKeyInput = ([], none) ∧
    (ecrecover.Run recoverHighSKey keccakHighSKey ecrecoverHighSInput).2 = none ∧
    (ecrecover.Run recoverHighSKey keccakHighSKey ecrecoverNoKeyInput).2 = none :=
  ⟨by decide, by decide, by decide,
    (ecrecover_Run_output_shape recoverHighSKey keccakHighSKey ecrecoverHighSInput
      keccakHighSKey_length recoverHighSKey_length).1,
    (ecrecover_Run_output_shape recoverHighSKey keccakHighSKey ecrecoverNoKeyInput
      keccakHighSKey_length recoverHighSKey_length).1⟩

/-- The result of `ecrecover.RunBuffer` is that of `ecrecover.Run` on the
bytes of the slice. -/
theorem ecrecover_RunBuffer_result (E : List Byte → List Byte → Option (List Byte))
    (K : List Byte → List Byte) (caller : Slice) :
    (ecrecover.RunBuffer E K caller).1 = ecrecover.Run E K caller.bytes := by
  unfold ecrecover.RunBuffer ecrecover.Run
  rcases RightPadBytes.memory caller 128 with ⟨shares, inputCap⟩
  simp only []
  generalize allZero (((RightPadBytes caller.bytes 128).drop 32).take 31) = a
  generalize ValidateSignatureValues ((RightPadBytes caller.bytes 128).getD 63 0 - 27)
    (SetBytes (((RightPadBytes caller.bytes 128).drop 64).take 32))
    (SetBytes (((RightPadBytes caller.bytes 128).drop 96).take 32)) false = b
  cases a <;> cases b <;> try rfl
  simp only [Bool.not_true, Bool.or_self, Bool.false_eq_true, if_false]
  cases E ((RightPadBytes caller.bytes 128).take 32)
    (((RightPadBytes caller.bytes 128).drop 64).take 64
      ++ [(RightPadBytes caller.bytes 128).getD 63 0 - 27]) <;> rfl

/-- A call leaves the caller's memory as it was when the slice is shorter
than 128 bytes or its capacity is at most 128. -/
theorem ecrecover_RunBuffer_unchanged (E : List Byte → List Byte → Option (List Byte))
    (K : List Byte → List Byte) (caller : Slice)
    (h : caller.len < 128 ∨ caller.cap ≤ 128) :
    (ecrecover.RunBuffer E K caller).2 = caller.buf := by
  unfold ecrecover.RunBuffer
  have hw : ((RightPadBytes.memory caller 128).1 &&
      decide (64 < (RightPadBytes.memory caller 128).2 - 64)) = false := by
    unfold RightPadBytes.memory
    by_cases hl : 128 ≤ caller.len
    · rw [if_pos hl]
      simp only [Bool.true_and]
      exact decide_eq_false (by omega)
    · rw [if_neg hl]
      rfl
  rcases hm : RightPadBytes.memory caller 128 with ⟨shares, inputCap⟩
  rw [hm] at hw
  simp only [] at hw
  simp only []
  rw [hw]
  simp only [Bool.false_eq_true, if_false]
  split_ifs
  · rfl
  · cases E ((RightPadBytes caller.bytes 128).take 32)
      (((RightPadBytes caller.bytes 128).drop 64).take 64
        ++ [(RightPadBytes caller.bytes 128).getD 63 0 - 27]) <;> rfl

set_option maxRecDepth 100000 in
/-- C12, the code at the failing input: for the 129-byte slice
`ecrecoverLongCall` (valid signature values, recovery id 1, last byte 0) the
call returns the address and leaves the caller's byte 128 overwritten with the
recovery id: the memory after the call is `ecrecoverHighSInput ++ [1]`. -/
theorem ecrecover_RunBuffer_overwrites_caller :
    ecrecoverLongCall.bytes = ecrecoverHighSInput ++ [0] ∧
    (ecrecover.RunBuffer recoverHighSKey keccakHighSKey ecrecoverLongCall).1
      = (List.replicate 12 (0 : Byte) ++ ecrecoverHighSKeyHash.drop 12, none) ∧
    (ecrecover.RunBuffer recoverHighSKey keccakHighSKey ecrecoverLongCall).2
      = ecrecoverHighSInput ++ [1] ∧
    (ecrecover.RunBuffer recoverHighSKey keccakHighSKey ecrecoverLongCall).2
      ≠ ecrecoverLongCall.buf := by
  refine ⟨by decide, by decide, by decide, by decide⟩

/-! ## The bn256 contracts -/

/-- C13: for every input whose length is not a multiple of 192,
`bn256Pairing.Run` returns `errBadPairingInput` with no output, whatever the
decoding of the library would answer on the chunks of the input. -/
theorem bn256Pairing_Run_bad_size (lib : Bn256) (input : List Byte)
    (h : input.length % 192 ≠ 0) :
    bn256Pairing.Run lib input = ([], some VMError.errBadPairingInput) := by
  unfold bn256Pairing.Run
  rw [if_pos (Nat.pos_of_ne_zero h)]

set_option maxRecDepth 100000 in
/-- C13 at an input of 191 bytes, and at `pairingMalformedChunk` followed by
one byte (193 bytes): its leading chunk holds a point that is not on the curve,
and alone it is answered with `errNotOnCurve`, but the longer input is answered
with the size error. -/
theorem bn256Pairing_Run_bad_size_witness :
    bn256Pairing.Run bn256Sample (List.replicate 191 (0 : Byte))
      = ([], some VMError.errBadPairingInput) ∧
    bn256Pairing.Run bn256Sample pairingMalformedChunk = ([], some VMError.errNotOnCurve) ∧
    bn256Pairing.Run bn256Sample (pairingMalformedChunk ++ [0])
      = ([], some VMError.errBadPairingInput) :=
  ⟨bn256Pairing_Run_bad_size bn256Sample (List.replicate 191 (0 : Byte)) (by decide),
   by decide,
   bn256Pairing_Run_bad_size bn256Sample (pairingMalformedChunk ++ [0]) (by decide)⟩

/-- C14: `newCurvePoint` validates in two stages. When unmarshalling reports
that the point is not on the curve it returns `errNotOnCurve`; otherwise it
returns `errInvalidCurvePoint` if and only if the x or the y coordinate is
greater than or equal to `P`, and the point if not. So a point that was decoded
has both coordinates below `P`, and `errNotOnCurve` comes before
`errInvalidCurvePoint`. -/
theorem newCurvePoint_two_stage (lib : Bn256) (blob : List Byte) :
    (lib.UnmarshalG1 blob = none →
      newCurvePoint lib blob = Except.error VMError.errNotOnCurve) ∧
    (∀ p, lib.UnmarshalG1 blob = some p →
      (newCurvePoint lib blob = Except.error VMError.errInvalidCurvePoint ↔
        (lib.CurvePointsG1 p).1 ≥ lib.P ∨ (lib.CurvePointsG1 p).2.1 ≥ lib.P) ∧
      (¬ ((lib.CurvePointsG1 p).1 ≥ lib.P ∨ (lib.CurvePointsG1 p).2.1 ≥ lib.P) →
        newCurvePoint lib blob = Except.ok p)) ∧
    (∀ p, newCurvePoint lib blob = Except.ok p →
      lib.UnmarshalG1 blob = some p ∧
      (lib.CurvePointsG1 p).1 < lib.P ∧ (lib.CurvePointsG1 p).2.1 < lib.P) := by
  unfold newCurvePoint
  cases hu : lib.UnmarshalG1 blob with
  | none =>
    refine ⟨fun _ => rfl, fun p hp => (by cases hp), fun p hp => ?_⟩
    simp only [reduceCtorEq] at hp
  | some q =>
    refine ⟨fun h => (by cases h), fun p hp => ?_, fun p hp => ?_⟩
    · cases hp
      dsimp only
      by_cases hc : (lib.CurvePointsG1 q).1 ≥ lib.P ∨ (lib.CurvePointsG1 q).2.1 ≥ lib.P
      · rw [if_pos hc]
        exact ⟨⟨fun _ => hc, fun _ => rfl⟩, fun hn => absurd hc hn⟩
      · rw [if_neg hc]
        refine ⟨⟨fun h => ?_, fun h => absurd h hc⟩, fun _ => rfl⟩
        simp only [reduceCtorEq] at h
    · dsimp only at hp
      by_cases hc : (lib.CurvePointsG1 q).1 ≥ lib.P ∨ (lib.CurvePointsG1 q).2.1 ≥ lib.P
      · rw [if_pos hc] at hp
        simp only [reduceCtorEq] at hp
      · rw [if_neg hc] at hp
        have hqp : q = p := by
          injection hp
        subst hqp
        refine ⟨rfl, ?_, ?_⟩
        · by_contra hlt
          exact hc (Or.inl (not_lt.mp hlt))
        · by_contra hlt
          exact hc (Or.inr (not_lt.mp hlt))

set_option maxRecDepth 100000 in
theorem bn256Sample_unmarshal_off_curve :
    bn256Sample.UnmarshalG1 (pointBlob 1 3) = none := by
  rfl

set_option maxRecDepth 100000 in
theorem bn256Sample_unmarshal_above_P :
    bn256Sample.UnmarshalG1 (pointBlob
      21888242871839275222246405745257275088696311157297823662689037894645226208584 2)
      = some ((21888242871839275222246405745257275088696311157297823662689037894645226208584,
          2) : Nat × Nat) := by
  rfl

set_option maxRecDepth 100000 in
theorem bn256Sample_unmarshal_on_curve :
    bn256Sample.UnmarshalG1 (pointBlob 1 2) = some ((1, 2) : Nat × Nat) := by
  rfl

set_option maxRecDepth 100000 in
/-- C14 on three blobs of the sample library: `(1, 3)` is not on the curve;
`(P + 1, 2)` satisfies the curve equation modulo `P` but its x coordinate is not
below `P`; `(1, 2)` is decoded. -/
theorem newCurvePoint_two_stage_witness :
    newCurvePoint bn256Sample (pointBlob 1 3) = Except.error VMError.errNotOnCurve ∧
    newCurvePoint bn256Sample (pointBlob
      21888242871839275222246405745257275088696311157297823662689037894645226208584 2)
      = Except.error VMError.errInvalidCurvePoint ∧
    newCurvePoint bn256Sample (pointBlob 1 2) = Except.ok ((1, 2) : Nat × Nat) :=
  ⟨(newCurvePoint_two_stage bn256Sample (pointBlob 1 3)).1 bn256Sample_unmarshal_off_curve,
   ((newCurvePoint_two_stage bn256Sample (pointBlob
      21888242871839275222246405745257275088696311157297823662689037894645226208584 2)).2.1
      (21888242871839275222246405745257275088696311157297823662689037894645226208584, 2)
      bn256Sample_unmarshal_above_P).1.mpr (Or.inl (by decide)),
   ((newCurvePoint_two_stage bn256Sample (pointBlob 1 2)).2.1 (1, 2)
      bn256Sample_unmarshal_on_curve).2 (by decide)⟩

/-! ## The hash and copy contracts -/

theorem ceil_div_32 (L : Nat) : ⌈((L : ℚ) / 32)⌉₊ = (L + 31) / 32 := by
  apply le_antisymm
  · rw [Nat.ceil_le, div_le_iff₀ (by norm_num)]
    have h : L ≤ (L + 31) / 32 * 32 := by omega
    exact_mod_cast h
  · by_contra h
    have h1 : ⌈((L : ℚ) / 32)⌉₊ + 1 ≤ (L + 31) / 32 := by omega
    have h2 : ((L : ℚ) / 32) ≤ ⌈((L : ℚ) / 32)⌉₊ := Nat.le_ceil _
    rw [div_le_iff₀ (by norm_num)] at h2
    have h3 : L ≤ ⌈((L : ℚ) / 32)⌉₊ * 32 := by exact_mod_cast h2
    omega

theorem wordGas_no_wrap (w b L : Nat) (hL : L < 2 ^ 56) (hc : 2 ^ 51 * w + b < 2 ^ 64) :
    ((L + 31) % 2 ^ 64 / 32 * w % 2 ^ 64 + b) % 2 ^ 64 = (L + 31) / 32 * w + b := by
  have h1 : (L + 31) % 2 ^ 64 = L + 31 := Nat.mod_eq_of_lt (by omega)
  have h2 : (L + 31) / 32 ≤ 2 ^ 51 := by omega
  have h3 : (L + 31) / 32 * w ≤ 2 ^ 51 * w := Nat.mul_le_mul_right w h2
  rw [h1, Nat.mod_eq_of_lt (by omega), Nat.mod_eq_of_lt (by omega)]

/-- C15: for each of `sha256hash`, `ripemd160hash` and `dataCopy`, with
constants `perWordGas = w` and `baseGas = b` for which `2^51 * w + b` fits in 64
bits, and every input of length `L < 2^56`, `RequiredGas(input)` is exactly
`ceil(L / 32) * w + b`, a value below `2^64`; it is the same for inputs of the
same length and it is `b` for the empty input. -/
theorem hash_copy_RequiredGas_formula (w b : Nat) (input : List Byte)
    (hL : input.length < 2 ^ 56) (hc : 2 ^ 51 * w + b < 2 ^ 64) :
    (sha256hash.RequiredGas w b input = ⌈((input.length : ℚ) / 32)⌉₊ * w + b ∧
      ripemd160hash.RequiredGas w b input = ⌈((input.length : ℚ) / 32)⌉₊ * w + b ∧
      dataCopy.RequiredGas w b input = ⌈((input.length : ℚ) / 32)⌉₊ * w + b) ∧
    ⌈((input.length : ℚ) / 32)⌉₊ * w + b < 2 ^ 64 ∧
    (∀ other : List Byte, other.length = input.length →
      sha256hash.RequiredGas w b other = sha256hash.RequiredGas w b input ∧
      ripemd160hash.RequiredGas w b other = ripemd160hash.RequiredGas w b input ∧
      dataCopy.RequiredGas w b other = dataCopy.RequiredGas w b input) ∧
    (sha256hash.RequiredGas w b [] = b ∧ ripemd160hash.RequiredGas w b [] = b ∧
      dataCopy.RequiredGas w b [] = b) := by
  have hf := wordGas_no_wrap w b input.length hL hc
  have h0 := wordGas_no_wrap w b 0 (by decide) hc
  have h2 : (input.length + 31) / 32 ≤ 2 ^ 51 := by omega
  have h3 : (input.length + 31) / 32 * w ≤ 2 ^ 51 * w := Nat.mul_le_mul_right w h2
  rw [ceil_div_32]
  unfold sha256hash.RequiredGas ripemd160hash.RequiredGas dataCopy.RequiredGas
  refine ⟨⟨hf, hf, hf⟩, by omega, ?_, ?_⟩
  · intro other ho
    rw [ho]
    exact ⟨rfl, rfl, rfl⟩
  · simp only [List.length_nil]
    have h00 : (0 + 31) / 32 * w + b = b := by omega
    rw [h00] at h0
    exact ⟨h0, h0, h0⟩

/-- C15 with the constants of the protocol (12 and 60 for SHA-256, 120 and
600 for RIPEMD-160, 3 and 15 for the identity) on an input of 33 bytes, two
words. -/
theorem hash_copy_RequiredGas_formula_witness :
    sha256hash.RequiredGas 12 60 (List.replicate 33 (0 : Byte)) = 2 * 12 + 60 ∧
    ripemd160hash.RequiredGas 120 600 (List.replicate 33 (0 : Byte)) = 2 * 120 + 600 ∧
    dataCopy.RequiredGas 3 15 (List.replicate 33 (0 : Byte)) = 2 * 3 + 15 ∧
    sha256hash.RequiredGas 12 60 [] = 60 :=
  have hc : ⌈(((List.replicate 33 (0 : Byte)).length : ℚ) / 32)⌉₊ = 2 := by
    rw [ceil_div_32]
    decide
  ⟨by
    have h := (hash_copy_RequiredGas_formula 12 60 (List.replicate 33 (0 : Byte))
      (by decide) (by decide)).1.1
    rw [hc] at h
    exact h,
   by
    have h := (hash_copy_RequiredGas_formula 120 600 (List.replicate 33 (0 : Byte))
      (by decide) (by decide)).1.2.1
    rw [hc] at h
    exact h,
   by
    have h := (hash_copy_RequiredGas_formula 3 15 (List.replicate 33 (0 : Byte))
      (by decide) (by decide)).1.2.2
    rw [hc] at h
    exact h,
   (hash_copy_RequiredGas_formula 12 60 (List.replicate 33 (0 : Byte))
      (by decide) (by decide)).2.2.2.1⟩

/-- C16: for every input, the empty one included, `dataCopy.Run(input)`
returns no error and an output equal to the input: the same length and the same
byte at every position. -/
theorem dataCopy_Run_identity (input : List Byte) :
    dataCopy.Run input = (input, none) ∧
    (dataCopy.Run input).2 = none ∧
    (dataCopy.Run input).1.length = input.length ∧
    (∀ i : Nat, (dataCopy.Run input).1[i]? = input[i]?) ∧
    dataCopy.Run [] = ([], none) :=
  ⟨rfl, rfl, rfl, fun _ => rfl, rfl⟩

/-! ## The registries -/

theorem BytesToAddress_small :
    BytesToAddress [1] = addressOf 1 ∧ BytesToAddress [2] = addressOf 2 ∧
    BytesToAddress [3] = addressOf 3 ∧ BytesToAddress [4] = addressOf 4 ∧
    BytesToAddress [5] = addressOf 5 ∧ BytesToAddress [6] = addressOf 6 ∧
    BytesToAddress [7] = addressOf 7 ∧ BytesToAddress [8] = addressOf 8 := by
  decide

theorem lookup_cons_eq (a k : List Byte) (v : ContractType)
    (rest : List (List Byte × ContractType)) :
    List.lookup a ((k, v) :: rest) = if a = k then some v else List.lookup a rest := by
  by_cases h : a = k
  · subst h
    simp [List.lookup]
  · rw [if_neg h]
    have hb : (a == k) = false := by
      rw [beq_eq_false_iff_ne]
      exact h
    simp [List.lookup, hb]

theorem lookup_nil_eq (a : List Byte) :
    List.lookup a ([] : List (List Byte × ContractType)) = none := rfl

theorem lookup_Homestead (a : List Byte) :
    PrecompiledContractsHomestead.lookup a =
      if a = addressOf 1 then some ContractType.ecrecover
      else if a = addressOf 2 then some ContractType.sha256hash
      else if a = addressOf 3 then some ContractType.ripemd160hash
      else if a = addressOf 4 then some ContractType.dataCopy
      else none := by
  obtain ⟨h1, h2, h3, h4, -⟩ := BytesToAddress_small
  unfold PrecompiledContractsHomestead
  rw [h1, h2, h3, h4]
  simp only [lookup_cons_eq, lookup_nil_eq]

theorem lookup_Byzantium (a : List Byte) :
    PrecompiledContractsByzantium.lookup a =
      if a = addressOf 1 then some ContractType.ecrecover
      else if a = addressOf 2 then some ContractType.sha256hash
      else if a = addressOf 3 then some ContractType.ripemd160hash
      else if a = addressOf 4 then some ContractType.dataCopy
      else if a = addressOf 5 then some ContractType.bigModExp
      else if a = addressOf 6 then some ContractType.bn256Add
      else if a = addressOf 7 then some ContractType.bn256ScalarMul
      else if a = addressOf 8 then some ContractType.bn256Pairing
      else none := by
  obtain ⟨h1, h2, h3, h4, h5, h6, h7, h8⟩ := BytesToAddress_small
  unfold PrecompiledContractsByzantium
  rw [h1, h2, h3, h4, h5, h6, h7, h8]
  simp only [lookup_cons_eq, lookup_nil_eq]

/-- C17: `PrecompiledContractsHomestead` has exactly the addresses 1 to 4 and
`PrecompiledContractsByzantium` exactly the addresses 1 to 8, mapped in order to
signature recovery, SHA-256, RIPEMD-160, identity, modexp, curve-add,
curve-scalar-mul and pairing-check; every address of the earlier registry maps
to the same contract in the later one. -/
theorem registries_addresses :
    (∀ a : List Byte, (∃ k, PrecompiledContractsHomestead.lookup a = some k) ↔
      ∃ n, 1 ≤ n ∧ n ≤ 4 ∧ a = addressOf n) ∧
    (∀ a : List Byte, (∃ k, PrecompiledContractsByzantium.lookup a = some k) ↔
      ∃ n, 1 ≤ n ∧ n ≤ 8 ∧ a = addressOf n) ∧
    (∀ n, 1 ≤ n → n ≤ 4 →
      PrecompiledContractsHomestead.lookup (addressOf n) = contractNumbered n) ∧
    (∀ n, 1 ≤ n → n ≤ 8 →
      PrecompiledContractsByzantium.lookup (addressOf n) = contractNumbered n) ∧
    (∀ (a : List Byte) (k : ContractType),
      PrecompiledContractsHomestead.lookup a = some k →
      PrecompiledContractsByzantium.lookup a = some k) := by
  refine ⟨?_, ?_, ?_, ?_, ?_⟩
  · intro a
    rw [lookup_Homestead]
    constructor
    · rintro ⟨k, hk⟩
      split_ifs at hk with c1 c2 c3 c4
      · exact ⟨1, by omega, by omega, c1⟩
      · exact ⟨2, by omega, by omega, c2⟩
      · exact ⟨3, by omega, by omega, c3⟩
      · exact ⟨4, by omega, by omega, c4⟩
    · rintro ⟨n, h1, h4, rfl⟩
      interval_cases n <;> exact Option.isSome_iff_exists.mp (by decide)
  · intro a
    rw [lookup_Byzantium]
    constructor
    · rintro ⟨k, hk⟩
      split_ifs at hk with c1 c2 c3 c4 c5 c6 c7 c8
      · exact ⟨1, by omega, by omega, c1⟩
      · exact ⟨2, by omega, by omega, c2⟩
      · exact ⟨3, by omega, by omega, c3⟩
      · exact ⟨4, by omega, by omega, c4⟩
      · exact ⟨5, by omega, by omega, c5⟩
      · exact ⟨6, by omega, by omega, c6⟩
      · exact ⟨7, by omega, by omega, c7⟩
      · exact ⟨8, by omega, by omega, c8⟩
    · rintro ⟨n, h1, h8, rfl⟩
      interval_cases n <;> exact Option.isSome_iff_exists.mp (by decide)
  · intro n h1 h4
    interval_cases n <;> decide
  · intro n h1 h8
    interval_cases n <;> decide
  · intro a k hk
    rw [lookup_Homestead] at hk
    rw [lookup_Byzantium]
    split_ifs at hk with c1 c2 c3 c4
    · rw [if_pos c1]; exact hk
    · rw [if_neg c1, if_pos c2]; exact hk
    · rw [if_neg c1, if_neg c2, if_pos c3]; exact hk
    · rw [if_neg c1, if_neg c2, if_neg c3, if_pos c4]; exact hk

/-! ## The stack -/

theorem index_natCast {α : Type} (l : List α) (i : Nat) : index l (i : Int) = l[i]? := by
  unfold index
  rw [if_pos (Int.ofNat_nonneg i), Int.toNat_ofNat]

theorem Stack_foldl_push (xs : List Int) : ∀ s : Stack,
    xs.foldl Stack.push s = { data := s.data ++ xs } := by
  induction xs with
  | nil => intro s; simp
  | cons x xs ih =>
    intro s
    rw [List.foldl_cons, ih]
    simp [Stack.push]

/-- C18: the stack is last-in-first-out. For every stack `s` and value `d`,
`push(d)` increases `len` by one and makes `peek()` and `Back(0)` return `d`, and
a following `pop()` returns `d` and the stack `s`; after pushing `x_1 .. x_k`
onto any stack, `Back(n)` returns `x_(k-n)` for every `n < k`. -/
theorem Stack_last_in_first_out (s : Stack) (d : Int) :
    (s.push d).len = s.len + 1 ∧
    (s.push d).peek = some d ∧
    (s.push d).Back 0 = some d ∧
    (s.push d).pop = some (d, s) ∧
    (∀ (xs : List Int) (n : Nat), n < xs.length →
      (xs.foldl Stack.push s).Back (n : Int) = xs[xs.length - 1 - n]? ∧
      (xs.foldl Stack.push s).Back (n : Int) ≠ none) := by
  have hlen : (s.push d).len = s.len + 1 := by
    simp [Stack.push, Stack.len]
  have htop : (s.push d).len - 1 = ((s.data.length : Nat) : Int) := by
    rw [hlen]
    simp [Stack.len]
  have hpeek : (s.push d).peek = some d := by
    unfold Stack.peek
    rw [htop, index_natCast]
    exact List.getElem?_concat_length _ _
  refine ⟨hlen, hpeek, ?_, ?_, ?_⟩
  · unfold Stack.Back
    rw [sub_zero]
    exact hpeek
  · unfold Stack.pop
    have hp : index (s.push d).data ((s.push d).len - 1) = some d := hpeek
    rw [hp]
    simp only [htop, Int.toNat_ofNat]
    simp [Stack.push]
  · intro xs n hn
    rw [Stack_foldl_push]
    unfold Stack.Back Stack.len
    have hidx : (((s.data ++ xs).length : Nat) : Int) - (n : Int) - 1
        = ((s.data.length + (xs.length - 1 - n) : Nat) : Int) := by
      rw [List.length_append]
      omega
    simp only []
    rw [hidx, index_natCast, List.getElem?_append_right (by omega)]
    have hsub : s.data.length + (xs.length - 1 - n) - s.data.length = xs.length - 1 - n := by
      omega
    rw [hsub]
    refine ⟨rfl, ?_⟩
    rw [List.getElem?_eq_getElem (by omega)]
    exact Option.some_ne_none _

theorem list_swap_properties (l : List Int) (i j : Nat) (a b : Int)
    (ha : l[j]? = some a) (hb : l[i]? = some b) :
    ((l.set i a).set j b).length = l.length ∧
    ((l.set i a).set j b)[i]? = some a ∧
    ((l.set i a).set j b)[j]? = some b ∧
    (∀ k, k ≠ i → k ≠ j → ((l.set i a).set j b)[k]? = l[k]?) ∧
    (((l.set i a).set j b).set i b).set j a = l := by
  have hj : j < l.length := (List.getElem?_eq_some_iff.mp ha).1
  have hi : i < l.length := (List.getElem?_eq_some_iff.mp hb).1
  have e2 : ((l.set i a).set j b)[i]? = some a := by
    by_cases hij : i = j
    · subst hij
      rw [ha] at hb
      cases hb
      rw [List.getElem?_set_self (by simpa using hi)]
    · rw [List.getElem?_set_ne (fun h => hij h.symm), List.getElem?_set_self hi]
  have e3 : ((l.set i a).set j b)[j]? = some b :=
    List.getElem?_set_self (by simpa using hj)
  have e4 : ∀ k, k ≠ i → k ≠ j → ((l.set i a).set j b)[k]? = l[k]? := by
    intro k hki hkj
    rw [List.getElem?_set_ne (fun h => hkj h.symm), List.getElem?_set_ne (fun h => hki h.symm)]
  refine ⟨by simp, e2, e3, e4, ?_⟩
  apply List.ext_getElem?
  intro k
  by_cases hkj : k = j
  · subst hkj
    rw [List.getElem?_set_self (by simpa using hj), ha]
  · rw [List.getElem?_set_ne (fun h => hkj h.symm)]
    by_cases hki : k = i
    · subst hki
      rw [List.getElem?_set_self (by simpa using hi), hb]
    · rw [List.getElem?_set_ne (fun h => hki h.symm)]
      exact e4 k hki hkj

theorem Stack_swap_eq (st : Stack) (n : Int) (i j : Nat) (a b : Int)
    (hi : st.len - n = (i : Int)) (hj : st.len - 1 = (j : Int))
    (ha : st.data[j]? = some a) (hb : st.data[i]? = some b) :
    st.swap n = some { data := (st.data.set i a).set j b } := by
  unfold Stack.swap
  rw [hi, hj, index_natCast, index_natCast, ha, hb]
  simp only [Int.toNat_ofNat]

/-- C19 fails as stated: `require(0)` returns no error on the empty stack and
on a stack of one item, so the `n` that pass `require` are not only those with
`1 ≤ n ≤ L`; and `swap(0)` reads the index `L`, out of range. -/
theorem Stack_swap_counterexample :
    Stack.require newstack 0 = none ∧ ¬ (1 ≤ (0 : Int) ∧ (0 : Int) ≤ Stack.len newstack) ∧
    Stack.swap newstack 0 = none ∧
    Stack.require { data := [5] } 0 = none ∧ Stack.swap { data := [5] } 0 = none := by
  decide

/-- C19, amended: for every stack of length `L` and every `n ≥ 1`, `require(n)`
returns no error exactly when `n ≤ L`; and for `1 ≤ n ≤ L`, `swap(n)` accesses
only valid indices, exchanges the top item with the item at index `L - n`,
leaves every other item and the length unchanged, and applied twice restores
the stack. -/
theorem Stack_swap_exchanges (st : Stack) (n : Int) (h1 : 1 ≤ n) :
    (st.require n = none ↔ n ≤ st.len) ∧
    (n ≤ st.len →
      (0 ≤ st.len - n ∧ st.len - n < st.len ∧ 0 ≤ st.len - 1 ∧ st.len - 1 < st.len) ∧
      ∃ st', st.swap n = some st' ∧
        st'.len = st.len ∧
        index st'.data (st.len - n) = index st.data (st.len - 1) ∧
        index st'.data (st.len - 1) = index st.data (st.len - n) ∧
        (∀ i : Int, i ≠ st.len - n → i ≠ st.len - 1 → index st'.data i = index st.data i) ∧
        st'.swap n = some st) := by
  constructor
  · unfold Stack.require
    split_ifs with h
    · constructor
      · intro hc; cases hc
      · intro hc; omega
    · constructor
      · intro _; omega
      · intro _; rfl
  · intro h2
    have hL : st.len = ((st.data.length : Nat) : Int) := rfl
    refine ⟨by omega, ?_⟩
    obtain ⟨i, hi⟩ : ∃ i : Nat, st.len - n = (i : Int) := ⟨(st.len - n).toNat, by omega⟩
    obtain ⟨j, hj⟩ : ∃ j : Nat, st.len - 1 = (j : Int) := ⟨(st.len - 1).toNat, by omega⟩
    have hil : i < st.data.length := by omega
    have hjl : j < st.data.length := by omega
    have ha : st.data[j]? = some st.data[j] := List.getElem?_eq_getElem hjl
    have hb : st.data[i]? = some st.data[i] := List.getElem?_eq_getElem hil
    obtain ⟨p1, p2, p3, p4, p5⟩ := list_swap_properties st.data i j _ _ ha hb
    have hlen : Stack.len { data := (st.data.set i st.data[j]).set j st.data[i] } = st.len := by
      simp only [Stack.len]
      rw [p1]
    refine ⟨_, Stack_swap_eq st n i j _ _ hi hj ha hb, hlen, ?_, ?_, ?_, ?_⟩
    · rw [hi, hj, index_natCast, index_natCast, p2, ha]
    · rw [hi, hj, index_natCast, index_natCast, p3, hb]
    · intro k hki hkj
      unfold index
      by_cases h0 : 0 ≤ k
      · rw [if_pos h0, if_pos h0]
        exact p4 k.toNat (by omega) (by omega)
      · rw [if_neg h0, if_neg h0]
    · rw [Stack_swap_eq _ n i j _ _ (by rw [hlen]; exact hi) (by rw [hlen]; exact hj) p3 p2]
      simp only [p5]

/-- C19, amended, on the stack `1, 2, 3, 4` (top 4) with `n = 3`: the top and
the item at index 1 are exchanged, and a second `swap(3)` restores the stack. -/
theorem Stack_swap_exchanges_witness :
    Stack.require { data := [1, 2, 3, 4] } 3 = none ∧
    Stack.swap { data := [1, 2, 3, 4] } 3 = some { data := [1, 4, 3, 2] } ∧
    Stack.swap { data := [1, 4, 3, 2] } 3 = some { data := [1, 2, 3, 4] } ∧
    Stack.require { data := [1, 2, 3, 4] } 5 ≠ none :=
  ⟨((Stack_swap_exchanges { data := [1, 2, 3, 4] } 3 (by decide)).1).mpr (by decide),
   by decide, by decide,
   fun h => absurd (((Stack_swap_exchanges { data := [1, 2, 3, 4] } 5 (by decide)).1).mp h)
    (by decide)⟩

/-! ## Monotonicity of the modexp cost -/

theorem modexpCost_pieces (x : Nat) :
    (x ≤ 64 → modexpCost x = modexpCostLow x) ∧
    (64 < x → x ≤ 1024 → modexpCost x = modexpCostMid x) ∧
    (1024 < x → modexpCost x = modexpCostHigh x) := by
  unfold modexpCost modexpCostLow modexpCostMid modexpCostHigh
  refine ⟨fun h => by rw [if_pos h], fun h1 h2 => by rw [if_neg (by omega), if_pos h2],
    fun h => by rw [if_neg (by omega), if_neg (by omega)]⟩

theorem modexpCost_mono (x y : Nat) (h : x ≤ y) : modexpCost x ≤ modexpCost y := by
  have hsq : x ^ 2 ≤ y ^ 2 := Nat.pow_le_pow_left h 2
  have hx1 : x ≤ 64 → x ^ 2 ≤ 64 ^ 2 := fun hx => Nat.pow_le_pow_left hx 2
  have hx2 : x ≤ 1024 → x ^ 2 ≤ 1024 ^ 2 := fun hx => Nat.pow_le_pow_left hx 2
  have hy1 : 65 ≤ y → 65 ^ 2 ≤ y ^ 2 := fun hy => Nat.pow_le_pow_left hy 2
  have hy2 : 1025 ≤ y → 1025 ^ 2 ≤ y ^ 2 := fun hy => Nat.pow_le_pow_left hy 2
  unfold modexpCost
  generalize x ^ 2 = a at *
  generalize y ^ 2 = b at *
  split_ifs <;> omega

theorem saturate_mono (a b : Nat) (h : a ≤ b) :
    (if 2 ^ 64 ≤ a then MaxUint64 else a) ≤ (if 2 ^ 64 ≤ b then MaxUint64 else b) := by
  unfold MaxUint64
  split_ifs <;> omega

/-- C20: the piecewise quadratic cost of `bigModExp.RequiredGas` (`x^2` for
`x ≤ 64`, `x^2/4 + 96x - 3072` for `64 < x ≤ 1024`, `x^2/16 + 480x - 199680`
above) is non-decreasing in `x` over all natural numbers, and adjacent pieces
agree at `x = 64` and `x = 1024`; so of two inputs with the same adjusted
exponent length, the one with the larger operand length `max(modLen, baseLen)`
does not require less gas. -/
theorem modexpCost_monotone :
    (∀ x, (x ≤ 64 → modexpCost x = modexpCostLow x) ∧
      (64 < x → x ≤ 1024 → modexpCost x = modexpCostMid x) ∧
      (1024 < x → modexpCost x = modexpCostHigh x)) ∧
    (∀ x y, x ≤ y → modexpCost x ≤ modexpCost y) ∧
    modexpCostLow 64 = modexpCostMid 64 ∧
    modexpCostMid 1024 = modexpCostHigh 1024 ∧
    (∀ (d : Nat) (input other : List Byte), 0 < d →
      input.length < 2 ^ 63 → other.length < 2 ^ 63 →
      modexpAdjExpLen input = modexpAdjExpLen other →
      modexpOperandLen input ≤ modexpOperandLen other →
      bigModExp.RequiredGas d input ≤ bigModExp.RequiredGas d other) := by
  refine ⟨modexpCost_pieces, modexpCost_mono, by decide, by decide, ?_⟩
  intro d input other _ hl1 hl2 hadj hx
  rw [bigModExp_RequiredGas_eq d input hl1, bigModExp_RequiredGas_eq d other hl2]
  apply saturate_mono
  unfold modexpRawGas
  rw [hadj]
  exact Nat.div_le_div_right (Nat.mul_le_mul_right _ (modexpCost_mono _ _ hx))

set_option maxRecDepth 100000 in
/-- C20 at `modexpSmallInput` and `modexpLongModInput`, which differ in the
declared length of the modulus only (1 and 1025), with divisor 1: the same
adjusted exponent length 7, and required gas 7 and 2505888. -/
theorem modexpCost_monotone_witness :
    modexpOperandLen modexpSmallInput = 1 ∧ modexpOperandLen modexpLongModInput = 1025 ∧
    bigModExp.RequiredGas 1 modexpSmallInput = 7 ∧
    bigModExp.RequiredGas 1 modexpLongModInput = 2505888 ∧
    bigModExp.RequiredGas 1 modexpSmallInput ≤ bigModExp.RequiredGas 1 modexpLongModInput :=
  ⟨by decide, by decide, by decide, by decide,
    modexpCost_monotone.2.2.2.2 1 modexpSmallInput modexpLongModInput (by decide) (by decide)
      (by decide)
      (by simp only [modexpAdjExpLen, modexpMsb, log2_eq_bitLenAux]; decide)
      (by decide)⟩

end Vm
